import Mathlib

/-!
Shallow embedding of the STEPS core simulation engine (crates `core` and `cli`,
files `src/core/src/cfg.rs` and `src/core/src/sim/*.rs`) and proofs about it.

Modelling conventions:
* Rust `f64` values are embedded as real numbers; the one place where a claim
  depends on IEEE behaviour at a zero divisor (`marker_1_ratio`) uses an
  explicit IEEE-style division `f64div` into an extended value type.
* Machine integers (`u16`, `u32`, `u64`, `usize`) are embedded as `ℕ`;
  subtraction mirrors wrapping-free Rust subtraction (the relevant values are
  guarded by invariants in the source, e.g. `accumulated_muts ≥ 1`).
* Panics (`assert!`, `unwrap`, `todo!`) on the paths the claims are about are
  modelled with `Except SimPanic`; length assertions between the parallel
  columns of `LineagesData`, which merely re-state the structural invariant,
  are not reified.
* The external `rand` / `rand_pcg` / `rand_distr` crates are collaborators
  outside the core: they are modelled by a `DistrOracle`, a record of pure
  functions over an abstract RNG-state type.  Every sampler consumes and
  returns the state, exactly like the `&mut R` threading in the source.
* The hashbrown `HashMap` of `MutationsData` is modelled as an association
  list in insertion order, together with an explicit `ExtractOrder`: the
  iteration order used by `HashMap::extract_if`, which hashbrown derives from
  its randomly seeded per-instance default hasher and which is therefore not
  a function of the simulation configuration or seed.
-/

open scoped Classical

noncomputable section

namespace STEPS

/-- External simulation configuration (`src/core/src/cfg.rs`, `SimConfig`). -/
structure SimConfig where
  replicates : ℕ
  transfers : ℕ
  markers : ℕ
  dilution_factor : ℝ
  beneficial_mutation_rate : ℝ
  neutral_mutation_rate : ℝ
  deleterious_mutation_rate : ℝ
  mutation_rate_mutation_rate : ℝ
  initial_beneficial_mutation_size : ℝ
  deleterious_mutation_size_factor : ℝ
  mutation_rate_mutation_size_factor : ℝ
  diminishing_returns_epistasis_strength : ℝ
  seed : Option ℕ
  max_pop_size : ℝ

/-- Secondary per-lineage data (`src/core/src/sim/types.rs`,
`SecondaryLineageData`). -/
structure SecondaryLineageData where
  lambda : ℝ
  id : ℕ
  parent_id : ℕ
  marker : ℕ
  accumulated_muts : ℕ

/-- Complete data for a single lineage (`types.rs`, `Lineage`). -/
structure Lineage where
  N : ℝ
  W : ℝ
  U : ℝ
  secondary : SecondaryLineageData

/-- Struct-of-arrays container for a population of lineages (`types.rs`,
`LineagesData`).  The four columns are parallel; `unique_id_counter` stores the
last ID that was assigned. -/
structure LineagesData where
  N : List ℝ
  W : List ℝ
  U : List ℝ
  secondary : List SecondaryLineageData
  unique_id_counter : ℕ

/-- The empty `LineagesData` (`Default` derive in the source). -/
def LineagesData.default : LineagesData :=
  { N := [], W := [], U := [], secondary := [], unique_id_counter := 0 }

/-- Types of mutations which can occur (`types.rs`, `MutationType`; the
`MutationRate` variant is matched in `mechanics.rs::new_mutant`). -/
inductive MutationType
  | Beneficial
  | Neutral
  | Deleterious
  | MutationRate
deriving DecidableEq

/-- Data for one mutation being tracked (`types.rs`, `Mutation`). -/
structure Mutation where
  id : ℕ
  background_id : ℕ
  delta_W : ℝ
  delta_U : ℝ
  first_transfer : ℕ
  N : List ℝ
  order : ℕ
  just_updated : Bool

/-- Data on the set of mutations being sequenced (`types.rs`, `MutationsData`).
The hashbrown map keyed by mutation ID is modelled as an association list in
insertion order. -/
structure MutationsData where
  muts : List (ℕ × Mutation)
  pruned_muts : List Mutation
  on_transfer : ℕ

/-- Empty `MutationsData` (`Default` derive / `MutationsData::new`). -/
def MutationsData.default : MutationsData :=
  { muts := [], pruned_muts := [], on_transfer := 0 }

/-- Panics reachable on the modelled paths of the source. -/
inductive SimPanic
  | assertFailed
  | unwrapNone
  | weightedIndexErr
  | todoDeleterious
  | todoMutationRate
deriving DecidableEq

/-- Interface to the external random-number collaborators (`rand::Rng::gen`,
`rand_distr::{Poisson, Binomial, Exp}`, `rand::distributions::Uniform`,
`rand_distr::weighted::WeightedIndex` and the `rand_pcg::Pcg64` seeding
entry points).  These crates are not part of the core source; each sampler is
modelled as a pure function consuming an abstract RNG state `σ`, which is all
the core relies on. -/
structure DistrOracle (σ : Type) where
  genf64 : σ → ℝ × σ
  poissonLarge : ℝ → σ → ℕ × σ
  binomial : ℕ → ℝ → σ → ℕ × σ
  expSample : ℝ → σ → ℝ × σ
  uniformSample : ℝ → ℝ → σ → ℝ × σ
  weightedIndexSample : List ℝ → σ → ℕ × σ
  seedFromU64 : ℕ → σ

/-- An iteration order of the hashbrown map, as used by `HashMap::extract_if`:
hashbrown visits the entries in an order derived from its randomly seeded
default hasher, which is chosen per map instance and is not determined by the
simulation configuration or seed.  It is modelled as an explicit reordering
function constrained to be a permutation of the stored entries. -/
def ExtractOrder : Type :=
  {f : List (ℕ × Mutation) → List (ℕ × Mutation) // ∀ l, (f l).Perm l}

/-- The identity iteration order. -/
def idExtract : ExtractOrder :=
  ⟨fun l => l, fun l => List.Perm.refl l⟩

/-- The reversed iteration order. -/
def revExtract : ExtractOrder :=
  ⟨fun l => l.reverse, fun l => l.reverse_perm⟩

/-! ## Distributions (`src/core/src/sim/distr.rs`) -/

/-- Value of the loop variable `p` of `direct_poisson` at the start of loop
iteration `k`: initialised to `exp(-lambda)` and multiplied by `lambda / x`
each time `x` is incremented. -/
def pSeq (lambda : ℝ) : ℕ → ℝ
  | 0 => Real.exp (-lambda)
  | k + 1 => pSeq lambda k * (lambda / (k + 1))

/-- Value of the loop variable `u` of `direct_poisson` at the start of loop
iteration `k`: initialised to the uniform draw and decremented by `p` each
iteration. -/
def uSeq (lambda u : ℝ) : ℕ → ℝ
  | 0 => u
  | k + 1 => uSeq lambda u k - pSeq lambda k

/-- Result of the `while u > p` loop of `direct_poisson`: the first iteration
index at which the loop condition fails.  When no index satisfies the exit
condition the Rust loop would diverge (impossible for `0 ≤ lambda` and a
uniform draw `u < 1`); `sInf` of the empty set returns the junk value 0. -/
def directPoissonValue (lambda u : ℝ) : ℕ :=
  sInf {k : ℕ | uSeq lambda u k ≤ pSeq lambda k}

/-- Sample a Poisson variate by direct inversion (`distr.rs`,
`direct_poisson`).  The `assert!(lambda >= 0.0)` is enforced upstream by the
modelled assert in `add_mutants` on every call path. -/
def direct_poisson {σ : Type} (O : DistrOracle σ) (lambda : ℝ) (st : σ) : ℕ × σ :=
  let draw := O.genf64 st
  (directPoissonValue lambda draw.1, draw.2)

/-- Sample a Poisson variate (`distr.rs`, `poisson`): direct inversion for
small `lambda`, the `rand_distr` sampler otherwise. -/
def poisson {σ : Type} (O : DistrOracle σ) (lambda : ℝ) (st : σ) : ℕ × σ :=
  if lambda ≤ 10 then direct_poisson O lambda st else O.poissonLarge lambda st

/-! ## Numeric kernels (`src/core/src/sim/kernels.rs`) -/

/-- Grow the lineages `delta_t` time forward (`kernels.rs`,
`grow_lineages_inplace`): `N[i] *= exp(W[i] * (delta_t * ln 2))`. -/
def grow_lineages_inplace (L : LineagesData) (delta_t : ℝ) : LineagesData :=
  { L with
    N := List.zipWith (fun n w => n * Real.exp (w * (delta_t * Real.log 2))) L.N L.W }

/-- Convert pre-growth population sizes to population deltas (`kernels.rs`,
`old_N_to_delta_N`): `old_N[i] := N[i] - old_N[i]`. -/
def old_N_to_delta_N (L : LineagesData) (old_N : List ℝ) : List ℝ :=
  List.zipWith (fun o n => n - o) old_N L.N

/-- Expected number of mutations for each lineage (`kernels.rs`,
`expected_mutation_counts`): `U[i] * eligible_N[i] * 2`. -/
def expected_mutation_counts (L : LineagesData) (eligible_N : List ℝ) : List ℝ :=
  List.zipWith (fun u n => u * n * 2) L.U eligible_N

/-! ## Summaries (`src/core/src/sim/summarize.rs`) -/

/-- Total population size and weighted mean fitness (`summarize.rs`,
`SumNAndAvgW`). -/
structure SumNAndAvgW where
  sum_N : ℝ
  avg_W : ℝ

/-- Total population size and arithmetic mean fitness (`summarize.rs`,
`sum_N_and_avg_W`). -/
def sum_N_and_avg_W (L : LineagesData) : SumNAndAvgW :=
  { sum_N := L.N.sum
    avg_W := (List.zipWith (fun n w => n * w) L.N L.W).sum / L.N.sum }

/-- Weighted arithmetic mean of lineage fitnesses (`summarize.rs`, `avg_W`). -/
def avg_W (L : LineagesData) : ℝ :=
  (sum_N_and_avg_W L).avg_W

/-- Value of an IEEE-754 double precision division whose operands are finite
doubles, keeping the IEEE zero-divisor behaviour that the real-number embedding
would otherwise erase. -/
inductive FVal
  | fin (x : ℝ)
  | posInf
  | negInf
  | nan

/-- IEEE-754 division of two finite doubles: a finite quotient for a nonzero
divisor, a signed infinity for a nonzero dividend over zero, NaN for 0/0. -/
def f64div (a b : ℝ) : FVal :=
  if b ≠ 0 then .fin (a / b)
  else if 0 < a then .posInf
  else if a < 0 then .negInf
  else .nan

/-- Total population size of lineages carrying marker 1 (the `marker_1_sum_N`
accumulator of `summarize.rs`, `marker_1_ratio`). -/
def marker_1_sum_N (L : LineagesData) : ℝ :=
  (List.zipWith (fun n (s : SecondaryLineageData) => if s.marker = 1 then n else 0)
    L.N L.secondary).sum

/-- Ratio of the marker 1 population to the population of all other markers
(`summarize.rs`, `marker_1_ratio`), with IEEE division semantics. -/
def marker_1_ratio (L : LineagesData) : FVal :=
  f64div (marker_1_sum_N L) (L.N.sum - marker_1_sum_N L)

/-- Weighted population standard deviation (`summarize.rs`, `stdev`). -/
def stdev (elements weights : List ℝ) : ℝ :=
  let n := weights.sum
  let mean := (List.zipWith (fun w e => w * e) weights elements).sum / n
  let sse := (List.zipWith (fun w e => w * (e - mean) ^ 2) weights elements).sum
  Real.sqrt (sse / n)

/-- Population standard deviation of accumulated mutation counts
(`summarize.rs`, `stdev_accumulated_muts`); note the source passes the raw
`accumulated_muts` values as elements. -/
def stdev_accumulated_muts (L : LineagesData) : ℝ :=
  stdev (L.secondary.map fun s => (s.accumulated_muts : ℝ)) L.N

/-- Maximum accumulated mutation count over the population (`summarize.rs`,
`max_accumulated_muts`); `None` models the `unwrap` panic on an empty
population. -/
def max_accumulated_muts (L : LineagesData) : Option ℕ :=
  (L.secondary.map fun s => s.accumulated_muts - 1).max?

/-- Minimum accumulated mutation count over the population (`summarize.rs`,
`min_accumulated_muts`). -/
def min_accumulated_muts (L : LineagesData) : Option ℕ :=
  (L.secondary.map fun s => s.accumulated_muts - 1).min?

/-- Weighted mean accumulated mutation count (`summarize.rs`,
`mean_accumulated_muts`). -/
def mean_accumulated_muts (L : LineagesData) : ℝ :=
  (List.zipWith (fun n (s : SecondaryLineageData) => ((s.accumulated_muts - 1 : ℕ) : ℝ) * n)
    L.N L.secondary).sum / L.N.sum

/-! ## Association-list model of the hashbrown `HashMap` of `MutationsData` -/

/-- Lookup in the association-list model of the mutation map
(`HashMap::get`). -/
def assocGet {α : Type} (l : List (ℕ × α)) (k : ℕ) : Option α :=
  (l.find? fun p => p.1 = k).map (·.2)

/-- In-place value update in the association-list model
(`HashMap::get_mut` followed by a write through the reference). -/
def assocUpdate {α : Type} (l : List (ℕ × α)) (k : ℕ) (f : α → α) : List (ℕ × α) :=
  l.map fun p => if p.1 = k then (p.1, f p.2) else p

/-- Insertion in the association-list model (`HashMap::insert`): replace the
value at an existing key, otherwise append. -/
def assocInsert {α : Type} (l : List (ℕ × α)) (k : ℕ) (v : α) : List (ℕ × α) :=
  if l.any fun p => p.1 = k then l.map fun p => if p.1 = k then (k, v) else p
  else l ++ [(k, v)]

/-! ## Mutation tracker (`types.rs` impl blocks and
`src/core/src/sim/sequencing.rs`) -/

/-- Record the transfer the simulations are currently on (`types.rs`,
`MutationsData::set_transfer`). -/
def MutationsData.set_transfer (md : MutationsData) (transfer : ℕ) : MutationsData :=
  { md with on_transfer := transfer }

/-- Register the mutation that created `child` from `parent` (`types.rs`,
`MutationsData::register`). -/
def MutationsData.register (md : MutationsData) (child parent : Lineage)
    (mutation_order : ℕ) : MutationsData :=
  let mutation : Mutation :=
    { id := child.secondary.id
      background_id := parent.secondary.id
      delta_W := child.W / parent.W - 1
      delta_U := 0
      first_transfer := md.on_transfer
      N := []
      order := mutation_order
      just_updated := false }
  { md with muts := assocInsert md.muts child.secondary.id mutation }

/-- Machine epsilon of `f64` (`f64::EPSILON`). -/
def f64EPSILON : ℝ := ((2 : ℝ) ^ (52 : ℕ))⁻¹

/-- One visit to a tracked mutation during the background-chain walk of
`update_sizes`: a mutation not yet updated this transfer gets the lineage
population pushed as a new entry and its flag set; an already-updated one gets
the population added onto its last entry (`mutation.N.last_mut().unwrap()`
cannot fail because `just_updated` implies a pushed entry; `getLastD` models
it totally). -/
def walkUpdate (m : Mutation) (Nval : ℝ) : Mutation :=
  if m.just_updated then { m with N := m.N.dropLast ++ [m.N.getLastD 0 + Nval] }
  else { m with N := m.N ++ [Nval], just_updated := true }

/-- The `while let Some(mutation) = map.get_mut(&id)` walk of `update_sizes`
for one lineage, following `background_id` links until a missing key.  The walk
is given `map.length + 1` fuel: IDs strictly decrease along a background chain
(children always receive larger IDs than their parents), so the source loop
can succeed at most once per key and the fuel is never exhausted. -/
def chainWalk (fuel : ℕ) (map : List (ℕ × Mutation)) (id : ℕ) (Nval : ℝ) :
    List (ℕ × Mutation) :=
  match fuel with
  | 0 => map
  | fuel + 1 =>
    match assocGet map id with
    | none => map
    | some m => chainWalk fuel (assocUpdate map id fun m0 => walkUpdate m0 Nval)
        m.background_id Nval

/-- The mutation map after the flag reset and all per-lineage background-chain
walks inside `update_sizes` (`sequencing.rs` lines 22-42). -/
def postWalkMap (sd : MutationsData) (pd : LineagesData) : List (ℕ × Mutation) :=
  let map0 := sd.muts.map fun p => (p.1, { p.2 with just_updated := false })
  (List.zip pd.N pd.secondary).foldl
    (fun map p => chainWalk (map.length + 1) map p.2.id p.1) map0

/-- The pruning predicate of `update_sizes` (`sequencing.rs`, the `prunable`
closure): extinct this transfer (flag still false) or fixed (last recorded
population within `f64::EPSILON` of the total).  The Rust `||` short-circuits,
so the `last().unwrap()` is only reached with `just_updated` true, when the
entry exists; `getLastD` models it totally. -/
def prunable (sum_N : ℝ) (m : Mutation) : Prop :=
  m.just_updated = false ∨ |m.N.getLastD 0 - sum_N| < f64EPSILON

/-- End-of-transfer mutation size accounting (`sequencing.rs`,
`update_sizes`): reset flags, walk every lineage's background chain, then move
every prunable mutation from the active map to `pruned_muts`
(`HashMap::extract_if`).  The pruned mutations are appended in the hash map's
iteration order `π`, which hashbrown derives from its randomly seeded hasher;
the retained entries form an unordered map and are represented canonically in
insertion order. -/
def update_sizes (π : ExtractOrder) (sd : MutationsData) (pd : LineagesData) :
    MutationsData :=
  let sum_N := pd.N.sum
  let map1 := postWalkMap sd pd
  { muts := map1.filter fun km => !decide (prunable sum_N km.2)
    pruned_muts := sd.pruned_muts ++
      ((π.1 map1).filter fun km => decide (prunable sum_N km.2)).map (·.2)
    on_transfer := sd.on_transfer }

/-! ## Lineage store operations (`types.rs`, `impl LineagesData`) -/

/-- Push a new lineage onto the parallel arrays (`LineagesData::push`). -/
def LineagesData.push (L : LineagesData) (data : Lineage) : LineagesData :=
  { L with
    N := L.N ++ [data.N]
    W := L.W ++ [data.W]
    U := L.U ++ [data.U]
    secondary := L.secondary ++ [data.secondary] }

/-- Push a child lineage, assigning its parent ID, a fresh unique ID and its
accumulated mutation count, and registering the mutation when tracking
(`LineagesData::push_child`). -/
def LineagesData.push_child (L : LineagesData) (child parent : Lineage)
    (mutation_order : ℕ) (mutations : Option MutationsData) :
    LineagesData × Option MutationsData :=
  let counter := L.unique_id_counter + 1
  let child' : Lineage :=
    { child with secondary :=
      { child.secondary with
        parent_id := parent.secondary.id
        id := counter
        accumulated_muts := parent.secondary.accumulated_muts + mutation_order } }
  ({ L with unique_id_counter := counter }.push child',
   mutations.map fun md => md.register child' parent mutation_order)

/-- Empty successor container inheriting the unique ID counter
(`LineagesData::successor`); the capacity reservation has no observable
effect. -/
def LineagesData.successor (old : LineagesData) : LineagesData :=
  { LineagesData.default with unique_id_counter := old.unique_id_counter }

/-- Value copy of all four columns at an index (`LineagesData::get_unchecked`;
always called in bounds, the defaults are unreachable). -/
def LineagesData.get (L : LineagesData) (i : ℕ) : Lineage :=
  { N := L.N.getD i 0
    W := L.W.getD i 0
    U := L.U.getD i 0
    secondary := L.secondary.getD i
      { lambda := 0, id := 0, parent_id := 0, marker := 0, accumulated_muts := 0 } }

/-! ## Internal configuration (`src/core/src/sim/mod.rs`,
`InternalSimConfig`) and Phase-1 doubling count (`mechanics.rs`) -/

/-- Number of Phase-1 doublings derived from the dilution factor
(`mechanics.rs`, `phase_1_doublings_required`), including the
`assert!(cfg.dilution_factor >= 2.0)`. -/
def phase_1_doublings_required (cfg : SimConfig) : Except SimPanic ℕ :=
  if ¬ (2 ≤ cfg.dilution_factor) then .error .assertFailed
  else
    let total_doublings := Real.logb 2 cfg.dilution_factor
    .ok (if Int.fract total_doublings < 0.5
      then ⌊total_doublings⌋.toNat - 1
      else ⌊total_doublings⌋.toNat)

/-- Simulation options including computed ones (`mod.rs`,
`InternalSimConfig`).  The weighted-index distribution is modelled by its
weight list. -/
structure InternalSimConfig where
  inner : SimConfig
  total_mutation_rate : ℝ
  dilution_coefficient : ℝ
  phase_1_doublings : ℕ
  mutation_type_index_distribution : Option (List ℝ)

/-- Validation performed by `rand_distr::weighted::WeightedIndex::new`
(external collaborator, modelled from its documented behaviour): errors when
the weight list is empty, any weight is negative, or the total weight is
zero. -/
def weightedIndexNew (weights : List ℝ) : Except SimPanic (List ℝ) :=
  if weights ≠ [] ∧ (∀ w ∈ weights, 0 ≤ w) ∧ weights.sum ≠ 0 then .ok weights
  else .error .weightedIndexErr

/-- Create an `InternalSimConfig` from a `SimConfig` (`mod.rs`,
`InternalSimConfig::new`).  Field initialisation order in the source makes the
dilution-factor assert fire before the weighted-index `unwrap`. -/
def InternalSimConfig.new (cfg : SimConfig) : Except SimPanic InternalSimConfig :=
  let total_mutation_rate := cfg.beneficial_mutation_rate + cfg.neutral_mutation_rate
    + cfg.deleterious_mutation_rate
  match phase_1_doublings_required cfg with
  | .error e => .error e
  | .ok p1 =>
    if 0 < total_mutation_rate then
      match weightedIndexNew [cfg.beneficial_mutation_rate, cfg.neutral_mutation_rate,
          cfg.deleterious_mutation_rate] with
      | .error e => .error e
      | .ok w => .ok
        { inner := cfg
          total_mutation_rate := total_mutation_rate
          dilution_coefficient := cfg.dilution_factor⁻¹
          phase_1_doublings := p1
          mutation_type_index_distribution := some w }
    else .ok
      { inner := cfg
        total_mutation_rate := total_mutation_rate
        dilution_coefficient := cfg.dilution_factor⁻¹
        phase_1_doublings := p1
        mutation_type_index_distribution := none }

/-- Available mutation types, in the order of the weighted index
(`mod.rs`, `InternalSimConfig::MUTATION_TYPES`). -/
def MUTATION_TYPES : List MutationType := [.Beneficial, .Neutral, .Deleterious]

/-- Randomly pick a mutation type weighted by the configured rates (`mod.rs`,
`InternalSimConfig::sample_mutation_type`); returns `none` iff all rates are
zero.  `WeightedIndex::sample` always yields an index below the weight count,
so the list default is unreachable. -/
def sample_mutation_type {σ : Type} (cfg : InternalSimConfig) (O : DistrOracle σ)
    (st : σ) : Option (MutationType × σ) :=
  cfg.mutation_type_index_distribution.map fun dist =>
    let s := O.weightedIndexSample dist st
    (MUTATION_TYPES.getD s.1 .Beneficial, s.2)

/-- Start-of-replicate lineage container (`types.rs`,
`LineagesData::for_sim_config`): one child of the synthetic ancestor per
marker, each with population `round(Nmax * (1/D) / markers)`. -/
def LineagesData.for_sim_config (cfg : InternalSimConfig)
    (mutations : Option MutationsData) : LineagesData × Option MutationsData :=
  let ancestor : Lineage :=
    { N := 0
      W := 1
      U := cfg.total_mutation_rate
      secondary :=
        { lambda := cfg.inner.initial_beneficial_mutation_size⁻¹
          id := 0
          parent_id := 0
          marker := 0
          accumulated_muts := 0 } }
  let Nval : ℝ :=
    (round (cfg.inner.max_pop_size * cfg.dilution_coefficient / (cfg.inner.markers : ℝ)) : ℤ)
  (List.range cfg.inner.markers).foldl
    (fun acc m =>
      let marker_mutant : Lineage :=
        { ancestor with
          N := Nval
          secondary := { ancestor.secondary with marker := m + 1 } }
      acc.1.push_child marker_mutant ancestor 1 acc.2)
    (LineagesData.default, mutations)

/-! ## Mechanics (`src/core/src/sim/mechanics.rs`) -/

/-- Apply a beneficial mutation in place (`mechanics.rs`,
`apply_beneficial_mutation`): draw `s ~ Exp(lambda)`, multiply fitness by
`1 + s` and lambda by `1 + g * s`. -/
def apply_beneficial_mutation {σ : Type} (O : DistrOracle σ) (lineage : Lineage)
    (cfg : InternalSimConfig) (st : σ) : Lineage × σ :=
  let samp := O.expSample lineage.secondary.lambda st
  ({ lineage with
      W := lineage.W * (1 + samp.1)
      secondary := { lineage.secondary with
        lambda := lineage.secondary.lambda *
          (1 + cfg.inner.diminishing_returns_epistasis_strength * samp.1) } },
    samp.2)

/-- The `for _ in 0..order` loop of `new_mutant`: sample a mutation type
(`unwrap` modelled as `SimPanic.unwrapNone`) and apply it; `Deleterious` and
`MutationRate` hit the respective `todo!` panics. -/
def newMutantLoop {σ : Type} (O : DistrOracle σ) (cfg : InternalSimConfig) :
    ℕ → Lineage → σ → Except SimPanic (Lineage × σ)
  | 0, mutant, st => .ok (mutant, st)
  | k + 1, mutant, st =>
    match sample_mutation_type cfg O st with
    | none => .error .unwrapNone
    | some (mt, st') =>
      match mt with
      | .Beneficial =>
        let r := apply_beneficial_mutation O mutant cfg st'
        newMutantLoop O cfg k r.1 r.2
      | .Neutral => newMutantLoop O cfg k mutant st'
      | .Deleterious => .error .todoDeleterious
      | .MutationRate => .error .todoMutationRate

/-- Generate a descendant lineage from `parent` with population size `1.0`
(`mechanics.rs`, `new_mutant`). -/
def new_mutant {σ : Type} (O : DistrOracle σ) (parent : Lineage) (order : ℕ)
    (cfg : InternalSimConfig) (st : σ) : Except SimPanic (Lineage × σ) :=
  newMutantLoop O cfg order { parent with N := 1 } st

/-- Upper bound (exclusive) of the sub-interval belonging to the current new
individual (`mechanics.rs`, the `individual_max_cutoff` block of
`add_mutants`).  The `%` on nonnegative doubles is embedded as
`tmp - U * ⌊tmp / U⌋`; the source clamps the lower end to the next
representable double above `cutoff`, whose sole effect — the bound staying
strictly above the current cutoff so the individual always absorbs it — is
realised structurally in `lineageMutantLoop`. -/
def individual_max_cutoff (U prev_cumsum cumsum cutoff : ℝ) : ℝ :=
  let tmp := cutoff - prev_cumsum
  min (tmp - (tmp - U * ⌊tmp / U⌋) + U + prev_cumsum) cumsum

/-- The `while cutoff < expected_mutations_cumsum` loop body of `add_mutants`
for one preexisting lineage `i`: group the current cutoff together with the
following cutoffs landing in the same individual sub-interval into one
mutant of that order, push the mutant, decrement the parent population
(clamped at 0), and repeat until the lineage interval is left (`Sum.inr`
carries the pending cutoff) or the cutoffs run out (`Sum.inl`, the early
`return` of the source). -/
def lineageMutantLoop {σ : Type} (O : DistrOracle σ) (cfg : InternalSimConfig)
    (i : ℕ) (lineage : Lineage) (prev_cumsum cumsum : ℝ) (cutoff : ℝ)
    (rest : List ℝ) (L : LineagesData) (muts : Option MutationsData) (st : σ) :
    Except SimPanic ((LineagesData × Option MutationsData × σ) ⊕
      (ℝ × List ℝ × LineagesData × Option MutationsData × σ)) :=
  if cutoff < cumsum then
    let imax := individual_max_cutoff lineage.U prev_cumsum cumsum cutoff
    let taken := rest.takeWhile fun c => decide (c < imax)
    let mutant_order := 1 + taken.length
    match new_mutant O lineage mutant_order cfg st with
    | .error e => .error e
    | .ok (mutant, st') =>
      let pc := L.push_child mutant lineage mutant_order muts
      let L' := { pc.1 with N := pc.1.N.set i (max (pc.1.N.getD i 0 - 1) 0) }
      match hr : rest.drop taken.length with
      | [] => .ok (.inl (L', pc.2, st'))
      | c :: cs => lineageMutantLoop O cfg i lineage prev_cumsum cumsum c cs L' pc.2 st'
  else .ok (.inr (cutoff, rest, L, muts, st))
termination_by rest.length
decreasing_by
  have h1 : (rest.drop taken.length).length = cs.length + 1 := by
    rw [hr]; simp
  have h2 : (rest.drop taken.length).length ≤ rest.length := by
    simp [List.length_drop]
  omega

/-- The `for i in 0..len` sweep of `add_mutants` over the preexisting
lineages' expected mutation counts, carrying the cumulative sum, the pending
cutoff and the unconsumed cutoffs. -/
def addMutantsLoop {σ : Type} (O : DistrOracle σ) (cfg : InternalSimConfig) :
    List ℝ → ℕ → ℝ → ℝ → List ℝ → LineagesData → Option MutationsData → σ →
    Except SimPanic (LineagesData × Option MutationsData × σ)
  | [], _, _, _, _, L, muts, st => .ok (L, muts, st)
  | e :: es, i, cumsum, cutoff, rest, L, muts, st =>
    if e = 0 then addMutantsLoop O cfg es (i + 1) cumsum cutoff rest L muts st
    else
      let prev_cumsum := cumsum
      let cumsum' := cumsum + e
      if cutoff < cumsum' then
        match lineageMutantLoop O cfg i (L.get i) prev_cumsum cumsum' cutoff rest L muts st with
        | .error err => .error err
        | .ok (.inl fin) => .ok fin
        | .ok (.inr (cutoff', rest', L', muts', st')) =>
          addMutantsLoop O cfg es (i + 1) cumsum' cutoff' rest' L' muts' st'
      else addMutantsLoop O cfg es (i + 1) cumsum' cutoff rest L muts st

/-- Draw `k` i.i.d. cutoffs uniform on `[0, hi)` in draw order
(the `(0..num_mutations).map(|_| cutoffs_dist.sample(rng))` collection of
`add_mutants`). -/
def drawCutoffs {σ : Type} (O : DistrOracle σ) (hi : ℝ) : ℕ → σ → List ℝ × σ
  | 0, st => ([], st)
  | k + 1, st =>
    let d := O.uniformSample 0 hi st
    let rest := drawCutoffs O hi k d.2
    (d.1 :: rest.1, rest.2)

/-- Add the mutants corresponding to the `delta_N` population changes
(`mechanics.rs`, `add_mutants`), including the
`assert!(expected_mutations >= 0.0)`. -/
def add_mutants {σ : Type} (O : DistrOracle σ) (cfg : InternalSimConfig)
    (L : LineagesData) (mutations : Option MutationsData) (delta_N : List ℝ)
    (st : σ) : Except SimPanic (LineagesData × Option MutationsData × σ) :=
  let ecounts := expected_mutation_counts L delta_N
  let expected_mutations := ecounts.sum
  if ¬ (0 ≤ expected_mutations) then .error .assertFailed
  else
    let pois := poisson O expected_mutations st
    if pois.1 = 0 then .ok (L, mutations, pois.2)
    else
      let draws := drawCutoffs O expected_mutations pois.1 pois.2
      let cutoffs := draws.1.mergeSort fun a b => decide (a ≤ b)
      match cutoffs with
      | [] => .ok (L, mutations, draws.2)
      | c :: cs => addMutantsLoop O cfg ecounts 0 0 c cs L mutations draws.2

/-- One Phase-1 doubling (`mechanics.rs`, `growth_phase_1`): one doubling at
mean fitness, then mutant injection from the growth deltas. -/
def growth_phase_1 {σ : Type} (O : DistrOracle σ) (cfg : InternalSimConfig)
    (L : LineagesData) (mutations : Option MutationsData) (st : σ) :
    Except SimPanic (LineagesData × Option MutationsData × σ) :=
  let delta_t := (avg_W L)⁻¹
  let old_N := L.N
  let L1 := grow_lineages_inplace L delta_t
  let delta_N := old_N_to_delta_N L1 old_N
  add_mutants O cfg L1 mutations delta_N st

/-- The Phase-2 doubling with bottleneck (`mechanics.rs`, `growth_phase_2`):
grow to `Nmax`, binomially subsample each lineage into a successor container,
then inject mutants among the surviving new cells.  Includes the
`assert!(delta_t >= 0.0)`. -/
def growth_phase_2 {σ : Type} (O : DistrOracle σ) (cfg : InternalSimConfig)
    (L : LineagesData) (mutations : Option MutationsData) (st : σ) :
    Except SimPanic (LineagesData × Option MutationsData × σ) :=
  let sa := sum_N_and_avg_W L
  let delta_t := Real.logb 2 (cfg.inner.max_pop_size / sa.sum_N) / sa.avg_W
  if ¬ (0 ≤ delta_t) then .error .assertFailed
  else
    let old_N := L.N
    let L1 := grow_lineages_inplace L delta_t
    let res := (List.range L1.N.length).foldl
      (fun (acc : LineagesData × List ℝ × σ) i =>
        let lineage := L1.get i
        let samp := O.binomial (round lineage.N).toNat cfg.dilution_coefficient acc.2.2
        if 0 < samp.1 then
          let N_after_growth := lineage.N
          let lineage' := { lineage with N := (samp.1 : ℝ) }
          (acc.1.push lineage',
            acc.2.1 ++ [lineage'.N * (1 - old_N.getD i 0 / N_after_growth)],
            samp.2)
        else (acc.1, acc.2.1, samp.2))
      (LineagesData.successor L1, [], st)
    add_mutants O cfg res.1 mutations res.2.1 res.2.2

/-! ## Simulation driver (`src/core/src/sim/mod.rs`, `SimulationHandler`) -/

/-- Handler running the simulations with an iterator-like interface
(`mod.rs`, `SimulationHandler`). -/
structure SimulationHandler (σ : Type) where
  replicate : ℕ
  transfer : ℕ
  cfg : InternalSimConfig
  lineages : LineagesData
  mutations : Option MutationsData
  rng : σ

/-- A snapshot of the simulation state (`mod.rs`, `SimulationState`).  The
borrowed views are embedded as value copies. -/
structure SimulationState where
  replicate : ℕ
  transfer : ℕ
  end_of_replicate : Bool
  lineages : LineagesData
  mutations : Option MutationsData

/-- Instantiate the RNG for the simulations (`mod.rs`, `default_sim_rng`):
seed from the config when given, otherwise from system entropy.  The entropy
drawn by `SimRng::from_entropy` is fresh per handler instance, so it is an
explicit input rather than a shared constant. -/
def default_sim_rng {σ : Type} (O : DistrOracle σ) (cfg : SimConfig)
    (entropy : σ) : σ :=
  match cfg.seed with
  | some seed => O.seedFromU64 seed
  | none => entropy

/-- Create a new `SimulationHandler` (`mod.rs`, `SimulationHandler::new`).
The `entropy` argument is the OS entropy this instance would seed from when
the config carries no seed. -/
def SimulationHandler.new {σ : Type} (O : DistrOracle σ) (cfg : SimConfig)
    (track_mutations : Bool) (entropy : σ) :
    Except SimPanic (SimulationHandler σ) :=
  match InternalSimConfig.new cfg with
  | .error e => .error e
  | .ok icfg => .ok
    { replicate := 0
      transfer := 0
      lineages := LineagesData.default
      mutations := if track_mutations then some MutationsData.default else none
      rng := default_sim_rng O cfg entropy
      cfg := icfg }

/-- Current state of the handled simulations (`mod.rs`,
`SimulationHandler::current_state`). -/
def SimulationHandler.current_state {σ : Type} (h : SimulationHandler σ) :
    Option SimulationState :=
  if 0 < h.replicate then some
    { replicate := h.replicate
      transfer := h.transfer
      end_of_replicate := h.transfer = h.cfg.inner.transfers
      lineages := h.lineages
      mutations := h.mutations }
  else none

/-- Start-of-replicate initialisation (`mod.rs`,
`SimulationHandler::start_replicate`): fresh mutation data when tracking,
lineages rebuilt from config, then one `update_sizes` to seed the marker
founder records. -/
def SimulationHandler.start_replicate {σ : Type} (π : ExtractOrder)
    (h : SimulationHandler σ) : SimulationHandler σ :=
  let mutations0 := h.mutations.map fun _ => MutationsData.default
  let p := LineagesData.for_sim_config h.cfg mutations0
  { h with
    lineages := p.1
    mutations := p.2.map fun md => update_sizes π md p.1 }

/-- One transfer on the underlying lineages (`mod.rs`,
`SimulationHandler::perform_transfer`): `phase_1_doublings` Phase-1 doublings,
then Phase 2, then `update_sizes` when tracking. -/
def SimulationHandler.perform_transfer {σ : Type} (O : DistrOracle σ)
    (π : ExtractOrder) (h : SimulationHandler σ) :
    Except SimPanic (SimulationHandler σ) :=
  let init : Except SimPanic (LineagesData × Option MutationsData × σ) :=
    .ok (h.lineages, h.mutations, h.rng)
  let afterP1 := (List.range h.cfg.phase_1_doublings).foldl
    (fun acc _ => match acc with
      | .error e => .error e
      | .ok (L, m, st) => growth_phase_1 O h.cfg L m st)
    init
  match afterP1 with
  | .error e => .error e
  | .ok (L, m, st) =>
    match growth_phase_2 O h.cfg L m st with
    | .error e => .error e
    | .ok (L2, m2, st2) => .ok
      { h with
        lineages := L2
        mutations := m2.map fun md => update_sizes π md L2
        rng := st2 }

/-- Advance the simulations and return the new state, or `none` when they
cannot be advanced (`mod.rs`, `SimulationHandler::next_state`).  Pruned
mutations are cleared and the transfer recorded before the replicate start or
transfer. -/
def SimulationHandler.next_state {σ : Type} (O : DistrOracle σ)
    (π : ExtractOrder) (h : SimulationHandler σ) :
    Except SimPanic (Option (SimulationState × SimulationHandler σ)) :=
  let advanced : Option (SimulationHandler σ) :=
    if (h.current_state.map fun st => st.end_of_replicate) = some false then
      some { h with transfer := h.transfer + 1 }
    else if h.replicate < h.cfg.inner.replicates then
      some { h with replicate := h.replicate + 1, transfer := 0 }
    else none
  match advanced with
  | none => .ok none
  | some h1 =>
    let h2 := { h1 with mutations := h1.mutations.map fun (md : MutationsData) =>
      MutationsData.set_transfer { md with pruned_muts := [] } h1.transfer }
    if h2.transfer = 0 then
      let h3 := h2.start_replicate π
      .ok (h3.current_state.map fun st => (st, h3))
    else
      match h2.perform_transfer O π with
      | .error e => .error e
      | .ok h3 => .ok (h3.current_state.map fun st => (st, h3))

/-- Whether the simulations are finished (`mod.rs`,
`SimulationHandler::is_finished`). -/
def SimulationHandler.is_finished {σ : Type} (h : SimulationHandler σ) : Prop :=
  h.replicate = h.cfg.inner.replicates ∧
    (h.replicate = 0 ∨ h.transfer = h.cfg.inner.transfers)

/-- Collect up to `n` successive snapshots by repeatedly calling
`next_state`, stopping at the end of the simulations (or at a panic). -/
def runSnapshots {σ : Type} (O : DistrOracle σ) (π : ExtractOrder) :
    ℕ → SimulationHandler σ → List SimulationState
  | 0, _ => []
  | n + 1, h =>
    match h.next_state O π with
    | .error _ => []
    | .ok none => []
    | .ok (some (st, h')) => st :: runSnapshots O π n h'

/-- The sequence of up to `n` snapshots produced by a driver freshly
constructed from `cfg`, given the instance's hash-map iteration order and OS
entropy. -/
def snapshotSeq {σ : Type} (O : DistrOracle σ) (π : ExtractOrder)
    (cfg : SimConfig) (track : Bool) (entropy : σ) (n : ℕ) :
    List SimulationState :=
  match SimulationHandler.new O cfg track entropy with
  | .error _ => []
  | .ok h => runSnapshots O π n h

/-! ## Concrete instances used to evaluate the theorems -/

/-- A trivial RNG oracle over the unit state, used to evaluate theorems on
concrete inputs. -/
def trivOracle : DistrOracle Unit :=
  { genf64 := fun _ => (1 / 2, ())
    poissonLarge := fun _ _ => (0, ())
    binomial := fun _ _ _ => (0, ())
    expSample := fun _ _ => (0, ())
    uniformSample := fun _ _ _ => (0, ())
    weightedIndexSample := fun _ _ => (0, ())
    seedFromU64 := fun _ => () }

/-! ## Helper lemmas -/

/-- Sum of a zipped marker filter over lineages that all carry marker 1. -/
theorem marker_1_sum_of_all_one (N : List ℝ) (sec : List SecondaryLineageData)
    (hm : ∀ s ∈ sec, s.marker = 1) (hlen : N.length = sec.length) :
    (List.zipWith (fun n (s : SecondaryLineageData) => if s.marker = 1 then n else 0)
      N sec).sum = N.sum := by
  induction N generalizing sec with
  | nil => simp
  | cons n ns ih =>
    cases sec with
    | nil => simp at hlen
    | cons s ss =>
      have hms : s.marker = 1 := hm s (by simp)
      rw [List.zipWith_cons_cons, List.sum_cons, if_pos hms,
        ih ss (fun t ht => hm t (by simp [ht])) (by simpa using hlen)]
      simp

/-- C9: For every `LineagesData` in which every lineage has marker 1 and the
total population is positive, `marker_1_ratio` returns positive infinity (the
IEEE result of dividing a positive sum by zero) without panicking. -/
theorem C9_marker_1_ratio_single_marker (L : LineagesData)
    (hm : ∀ s ∈ L.secondary, s.marker = 1)
    (hlen : L.N.length = L.secondary.length)
    (hpos : 0 < L.N.sum) :
    marker_1_ratio L = FVal.posInf := by
  have hsum : marker_1_sum_N L = L.N.sum :=
    marker_1_sum_of_all_one L.N L.secondary hm hlen
  unfold marker_1_ratio
  rw [hsum, sub_self]
  unfold f64div
  rw [if_neg (by simp), if_pos hpos]

/-- A concrete single-marker population with one lineage of size 5. -/
def singleMarkerPop : LineagesData :=
  { N := [5], W := [1], U := [0]
    secondary := [⟨0, 1, 0, 1, 1⟩]
    unique_id_counter := 1 }

/-- Evaluation of `C9_marker_1_ratio_single_marker` on a concrete single-marker
population. -/
theorem C9_witness : marker_1_ratio singleMarkerPop = FVal.posInf :=
  C9_marker_1_ratio_single_marker singleMarkerPop
    (by intro s hs; simp [singleMarkerPop] at hs; simp [hs]) rfl
    (by norm_num [singleMarkerPop])

/-- C5: For every call `push_child(child, parent, order, mutations)`, the
lineage actually inserted into the store (the new last entry of the secondary
column) has `accumulated_muts` equal to `parent.accumulated_muts + order`. -/
theorem C5_push_child_accumulated_muts (L : LineagesData) (child parent : Lineage)
    (order : ℕ) (muts : Option MutationsData) :
    ((L.push_child child parent order muts).1.secondary.map
      fun s => s.accumulated_muts).getLast? =
      some (parent.secondary.accumulated_muts + order) := by
  simp [LineagesData.push_child, LineagesData.push]

/-- Closed form of the `p` loop variable: the Poisson probability mass
`exp(-lambda) * lambda^k / k!`. -/
theorem pSeq_eq (lambda : ℝ) (k : ℕ) :
    pSeq lambda k = Real.exp (-lambda) * lambda ^ k / (k.factorial : ℝ) := by
  induction k with
  | zero => simp [pSeq]
  | succ k ih =>
    have hk : ((k.factorial : ℝ)) ≠ 0 := by positivity
    have hk1 : ((k : ℝ) + 1) ≠ 0 := by positivity
    rw [pSeq, ih, Nat.factorial_succ]
    push_cast
    field_simp
    ring

/-- Closed form of the `u` loop variable: the draw minus the partial pmf
sum. -/
theorem uSeq_eq (lambda u : ℝ) (k : ℕ) :
    uSeq lambda u k = u - ∑ j in Finset.range k, pSeq lambda j := by
  induction k with
  | zero => simp [uSeq]
  | succ k ih => rw [uSeq, ih, Finset.sum_range_succ]; ring

/-- C7: For every lambda with `0 ≤ lambda ≤ 10` and every rng state,
`poisson` returns the value of the direct inversion algorithm — the loop
count whose closed form is the least `k` with `u ≤ ∑_{j ≤ k}
exp(-lambda) lambda^j / j!` — consuming exactly one uniform draw; in
particular `poisson(0, rng)` returns 0 whenever the uniform draw is below 1
(as `rand` guarantees). -/
theorem C7_poisson_direct {σ : Type} (O : DistrOracle σ) (lambda : ℝ) (st : σ)
    (h0 : 0 ≤ lambda) (h10 : lambda ≤ 10) (hu : (O.genf64 st).1 < 1) :
    poisson O lambda st = (directPoissonValue lambda (O.genf64 st).1, (O.genf64 st).2) ∧
    directPoissonValue lambda (O.genf64 st).1 =
      sInf {k : ℕ | (O.genf64 st).1 ≤ ∑ j in Finset.range (k + 1),
        Real.exp (-lambda) * lambda ^ j / (j.factorial : ℝ)} ∧
    (lambda = 0 → (poisson O lambda st).1 = 0) := by
  have hdisp : poisson O lambda st =
      (directPoissonValue lambda (O.genf64 st).1, (O.genf64 st).2) := by
    rw [poisson, if_pos h10]
    rfl
  have hsets : {k : ℕ | uSeq lambda (O.genf64 st).1 k ≤ pSeq lambda k} =
      {k : ℕ | (O.genf64 st).1 ≤ ∑ j in Finset.range (k + 1),
        Real.exp (-lambda) * lambda ^ j / (j.factorial : ℝ)} := by
    ext k
    simp only [Set.mem_setOf_eq]
    rw [uSeq_eq, Finset.sum_range_succ, sub_le_iff_le_add,
      Finset.sum_congr rfl fun j _ => pSeq_eq lambda j, pSeq_eq]
    constructor <;> intro h <;> linarith
  refine ⟨hdisp, ?_, ?_⟩
  · rw [directPoissonValue, hsets]
  · intro hl
    rw [hdisp]
    subst hl
    rw [directPoissonValue]
    refine Nat.sInf_eq_zero.mpr (Or.inl ?_)
    have : uSeq 0 (O.genf64 st).1 0 ≤ pSeq 0 0 := by
      rw [uSeq, pSeq]
      simpa using hu.le
    exact this

/-- Evaluation of `C7_poisson_direct` at `lambda = 0` on the trivial
oracle. -/
theorem C7_witness : (poisson trivOracle 0 ()).1 = 0 :=
  (C7_poisson_direct trivOracle 0 () (le_refl 0) (by norm_num)
    (by norm_num [trivOracle])).2.2 rfl

/-- The concrete scenario configuration of the spec: one replicate, zero
transfers, two markers, dilution factor 100, all mutation rates zero,
`Nmax = 5e8`, seed 42, remaining fields at their CLI defaults. -/
def cfgScenario1 : SimConfig :=
  { replicates := 1
    transfers := 0
    markers := 2
    dilution_factor := 100
    beneficial_mutation_rate := 0
    neutral_mutation_rate := 0
    deleterious_mutation_rate := 0
    mutation_rate_mutation_rate := 0
    initial_beneficial_mutation_size := 0.015873
    deleterious_mutation_size_factor := 0
    mutation_rate_mutation_size_factor := 0
    diminishing_returns_epistasis_strength := 1
    seed := some 42
    max_pop_size := 5e8 }

/-- The base-2 logarithm of 100 lies in `[6.5, 7)`. -/
theorem logb_two_hundred_bounds :
    13 / 2 ≤ Real.logb 2 (100 : ℝ) ∧ Real.logb 2 (100 : ℝ) < 7 := by
  constructor
  · rw [Real.le_logb_iff_rpow_le (by norm_num) (by norm_num)]
    have ha : (0 : ℝ) ≤ (2 : ℝ) ^ ((13 : ℝ) / 2) := by positivity
    have hsq : ((2 : ℝ) ^ ((13 : ℝ) / 2)) ^ (2 : ℕ) = 8192 := by
      rw [← Real.rpow_natCast ((2 : ℝ) ^ ((13 : ℝ) / 2)) 2,
        ← Real.rpow_mul (by norm_num : (0 : ℝ) ≤ 2)]
      norm_num
    nlinarith [hsq, ha]
  · rw [Real.logb_lt_iff_lt_rpow (by norm_num) (by norm_num),
      show ((7 : ℝ)) = ((7 : ℕ) : ℝ) by norm_num, Real.rpow_natCast]
    norm_num

/-- C2: For every dilution factor `D ≥ 2`, `phase_1_doublings_required`
returns `floor(log2 D) - 1` when the fractional part of `log2 D` is below
one half and `floor(log2 D)` otherwise; in particular `D = 2` gives 0,
`D = 4` gives 1 and `D = 100` gives 6. -/
theorem C2_phase_1_doublings_required (cfg : SimConfig)
    (hD : 2 ≤ cfg.dilution_factor) :
    (∃ n : ℕ, phase_1_doublings_required cfg = .ok n ∧
      (n : ℤ) = if Int.fract (Real.logb 2 cfg.dilution_factor) < 1 / 2
        then ⌊Real.logb 2 cfg.dilution_factor⌋ - 1
        else ⌊Real.logb 2 cfg.dilution_factor⌋) ∧
    (cfg.dilution_factor = 2 → phase_1_doublings_required cfg = .ok 0) ∧
    (cfg.dilution_factor = 4 → phase_1_doublings_required cfg = .ok 1) ∧
    (cfg.dilution_factor = 100 → phase_1_doublings_required cfg = .ok 6) := by
  have hhalf : (0.5 : ℝ) = 1 / 2 := by norm_num
  have hpos : (0 : ℝ) < cfg.dilution_factor := by linarith
  have h1le : 1 ≤ Real.logb 2 cfg.dilution_factor := by
    rw [Real.le_logb_iff_rpow_le (by norm_num) hpos, Real.rpow_one]
    exact hD
  have hfl : 1 ≤ ⌊Real.logb 2 cfg.dilution_factor⌋ :=
    Int.le_floor.mpr (by exact_mod_cast h1le)
  refine ⟨?_, ?_, ?_, ?_⟩
  · rw [phase_1_doublings_required, if_neg (not_not_intro hD)]
    simp only [hhalf]
    by_cases hf : Int.fract (Real.logb 2 cfg.dilution_factor) < 1 / 2
    · refine ⟨_, by rw [if_pos hf], ?_⟩
      rw [if_pos hf]
      omega
    · refine ⟨_, by rw [if_neg hf], ?_⟩
      rw [if_neg hf]
      omega
  · intro h2
    rw [phase_1_doublings_required, if_neg (not_not_intro hD), h2,
      Real.logb_self_eq_one (by norm_num)]
    norm_num
  · intro h4
    have hl4 : Real.logb 2 (4 : ℝ) = 2 := by
      rw [show (4 : ℝ) = 2 ^ (2 : ℕ) by norm_num, Real.logb_pow,
        Real.logb_self_eq_one (by norm_num)]
      norm_num
    have hfr2 : Int.fract ((2 : ℝ)) = 0 := by
      rw [show ((2 : ℝ)) = ((2 : ℤ) : ℝ) by norm_num, Int.fract_intCast]
    have hfl2 : ⌊(2 : ℝ)⌋ = 2 := by
      rw [show ((2 : ℝ)) = ((2 : ℤ) : ℝ) by norm_num, Int.floor_intCast]
    rw [phase_1_doublings_required, if_neg (not_not_intro hD), h4]
    simp only [hl4, hfr2, hfl2]
    norm_num
    rfl
  · intro h100
    obtain ⟨hlo, hhi⟩ := logb_two_hundred_bounds
    have hfloor : ⌊Real.logb 2 (100 : ℝ)⌋ = 6 := by
      rw [Int.floor_eq_iff]
      constructor
      · push_cast; linarith
      · push_cast; linarith
    have hfr : ¬ Int.fract (Real.logb 2 (100 : ℝ)) < 0.5 := by
      rw [Int.fract, hfloor]
      push_cast
      intro hcon
      linarith
    rw [phase_1_doublings_required, if_neg (not_not_intro hD), h100]
    simp only [hfloor]
    rw [if_neg hfr]
    rfl

/-- Evaluation of `C2_phase_1_doublings_required` at the dilution factor 100
of the concrete scenario configuration. -/
theorem C2_witness : phase_1_doublings_required cfgScenario1 = .ok 6 :=
  (C2_phase_1_doublings_required cfgScenario1
    (by simp [cfgScenario1]; norm_num)).2.2.2 (by simp [cfgScenario1])

/-- Summing the first components of a zip of equally long lists gives the sum
of the first list. -/
theorem zipWith_fst_sum (w e : List ℝ) (hlen : w.length = e.length) :
    (List.zipWith (fun a (_ : ℝ) => a) w e).sum = w.sum := by
  induction w generalizing e with
  | nil => simp
  | cons a as ih =>
    cases e with
    | nil => simp at hlen
    | cons b bs => simp [ih bs (by simpa using hlen)]

/-- Distributing the weighted sum over a shift of the elements. -/
theorem zipWith_mul_sub_one_sum (w e : List ℝ) :
    (List.zipWith (fun a b => a * (b - 1)) w e).sum =
      (List.zipWith (fun a b => a * b) w e).sum -
        (List.zipWith (fun a (_ : ℝ) => a) w e).sum := by
  induction w generalizing e with
  | nil => simp
  | cons a as ih =>
    cases e with
    | nil => simp
    | cons b bs =>
      simp only [List.zipWith_cons_cons, List.sum_cons, ih bs]
      ring

/-- The weighted population standard deviation is invariant under shifting
every element down by one, for equally long element and weight lists with a
nonzero total weight. -/
theorem stdev_shift (e w : List ℝ) (hlen : w.length = e.length)
    (hw : w.sum ≠ 0) :
    stdev (e.map fun x => x - 1) w = stdev e w := by
  simp only [stdev, List.zipWith_map_right]
  have hmean : (List.zipWith (fun a b => a * (b - 1)) w e).sum / w.sum =
      (List.zipWith (fun a b => a * b) w e).sum / w.sum - 1 := by
    rw [zipWith_mul_sub_one_sum, zipWith_fst_sum w e hlen, sub_div, div_self hw]
  rw [hmean]
  have hfun : (fun a b => a * (b - 1 -
        ((List.zipWith (fun a b => a * b) w e).sum / w.sum - 1)) ^ 2) =
      fun a b => a * (b - (List.zipWith (fun a b => a * b) w e).sum / w.sum) ^ 2 := by
    funext a b
    ring
  rw [hfun]

/-- Modelled from the spec: the N-weighted population standard deviation of
the shifted values `accumulated_muts − 1`. -/
def specShiftedStdev (L : LineagesData) : ℝ :=
  stdev (L.secondary.map fun s => (s.accumulated_muts : ℝ) - 1) L.N

/-- Modelled from the spec: the maximum of the shifted values
`accumulated_muts − 1` over the population, as integers. -/
def specShiftedMax (L : LineagesData) : Option ℤ :=
  (L.secondary.map fun s => (s.accumulated_muts : ℤ) - 1).max?

/-- Modelled from the spec: the minimum of the shifted values
`accumulated_muts − 1` over the population, as integers. -/
def specShiftedMin (L : LineagesData) : Option ℤ :=
  (L.secondary.map fun s => (s.accumulated_muts : ℤ) - 1).min?

/-- Modelled from the spec: the N-weighted mean of the shifted values
`accumulated_muts − 1`. -/
def specShiftedMean (L : LineagesData) : ℝ :=
  (List.zipWith (fun n (s : SecondaryLineageData) => ((s.accumulated_muts : ℝ) - 1) * n)
    L.N L.secondary).sum / L.N.sum

/-- Folding `max` over values shifted down by one and cast to `ℤ` agrees with
folding over the cast-then-shifted values, when everything is at least one. -/
theorem foldl_max_shift_cast (l : List ℕ) : ∀ init : ℕ, 1 ≤ init →
    (∀ a ∈ l, 1 ≤ a) →
    (((l.map fun a => a - 1).foldl max (init - 1) : ℕ) : ℤ) =
      (l.map fun a : ℕ => ((a : ℤ) - 1)).foldl max ((init : ℤ) - 1) := by
  induction l with
  | nil =>
    intro init hi _
    simp only [List.map_nil, List.foldl_nil]
    omega
  | cons a as ih =>
    intro init hi h
    simp only [List.map_cons, List.foldl_cons]
    have h1 : max (init - 1) (a - 1) = max init a - 1 := by omega
    have h2 : max ((init : ℤ) - 1) ((a : ℤ) - 1) = ((max init a : ℕ) : ℤ) - 1 := by
      omega
    rw [h1, h2]
    exact ih (max init a) (le_trans hi (le_max_left _ _)) fun b hb => h b (by simp [hb])

/-- Folding `min` over values shifted down by one and cast to `ℤ` agrees with
folding over the cast-then-shifted values, when everything is at least one. -/
theorem foldl_min_shift_cast (l : List ℕ) : ∀ init : ℕ, 1 ≤ init →
    (∀ a ∈ l, 1 ≤ a) →
    (((l.map fun a => a - 1).foldl min (init - 1) : ℕ) : ℤ) =
      (l.map fun a : ℕ => ((a : ℤ) - 1)).foldl min ((init : ℤ) - 1) := by
  induction l with
  | nil =>
    intro init hi _
    simp only [List.map_nil, List.foldl_nil]
    omega
  | cons a as ih =>
    intro init hi h
    simp only [List.map_cons, List.foldl_cons]
    have ha : 1 ≤ a := h a (by simp)
    have h1 : min (init - 1) (a - 1) = min init a - 1 := by omega
    have h2 : min ((init : ℤ) - 1) ((a : ℤ) - 1) = ((min init a : ℕ) : ℤ) - 1 := by
      omega
    rw [h1, h2]
    exact ih (min init a) (by omega) fun b hb => h b (by simp [hb])

/-- Casting the truncated shift through the weighted zip, when every
accumulated count is at least one. -/
theorem zip_mean_shift_cast (N : List ℝ) (sec : List SecondaryLineageData)
    (hacc : ∀ s ∈ sec, 1 ≤ s.accumulated_muts) :
    List.zipWith (fun n (s : SecondaryLineageData) =>
        ((s.accumulated_muts - 1 : ℕ) : ℝ) * n) N sec =
      List.zipWith (fun n (s : SecondaryLineageData) =>
        ((s.accumulated_muts : ℝ) - 1) * n) N sec := by
  induction N generalizing sec with
  | nil => simp
  | cons n ns ih =>
    cases sec with
    | nil => simp
    | cons s ss =>
      have h1 : ((s.accumulated_muts - 1 : ℕ) : ℝ) = (s.accumulated_muts : ℝ) - 1 := by
        have hs1 := hacc s (by simp)
        push_cast [Nat.cast_sub hs1]
        ring
      simp only [List.zipWith_cons_cons, h1,
        ih ss fun t ht => hacc t (by simp [ht])]

/-- C6: The summary statistics stdev, max, min and mean of accumulated
mutations are all computed over the shifted values `accumulated_muts − 1`,
N-weighted where applicable; in particular `stdev_accumulated_muts` equals
the N-weighted population standard deviation of `accumulated_muts − 1`
(the source computes it over the unshifted values, which the weighted
population standard deviation cannot distinguish). -/
theorem C6_summaries_shifted (L : LineagesData)
    (hsum : L.N.sum ≠ 0)
    (hlen : L.N.length = L.secondary.length)
    (hacc : ∀ s ∈ L.secondary, 1 ≤ s.accumulated_muts) :
    stdev_accumulated_muts L = specShiftedStdev L ∧
    (max_accumulated_muts L).map (fun v : ℕ => (v : ℤ)) = specShiftedMax L ∧
    (min_accumulated_muts L).map (fun v : ℕ => (v : ℤ)) = specShiftedMin L ∧
    mean_accumulated_muts L = specShiftedMean L := by
  refine ⟨?_, ?_, ?_, ?_⟩
  · have hmm : (L.secondary.map fun s => (s.accumulated_muts : ℝ) - 1) =
        (L.secondary.map fun s => (s.accumulated_muts : ℝ)).map fun x => x - 1 := by
      simp [List.map_map, Function.comp]
    rw [stdev_accumulated_muts, specShiftedStdev, hmm,
      stdev_shift (L.secondary.map fun s => ((s.accumulated_muts : ℝ)))
        L.N (by simpa using hlen) hsum]
  · rw [max_accumulated_muts, specShiftedMax]
    cases hsec : L.secondary with
    | nil => rfl
    | cons s ss =>
      have hall : ∀ a ∈ ss.map fun t => t.accumulated_muts, 1 ≤ a := by
        intro a ha
        simp only [List.mem_map] at ha
        obtain ⟨t, ht, rfl⟩ := ha
        exact hacc t (by simp [hsec, ht])
      have hs1 : 1 ≤ s.accumulated_muts := hacc s (by simp [hsec])
      have hfold := foldl_max_shift_cast (ss.map fun t => t.accumulated_muts)
        s.accumulated_muts hs1 hall
      simp only [List.map_map] at hfold
      show some ((((ss.map fun t => t.accumulated_muts - 1).foldl max
          (s.accumulated_muts - 1)) : ℕ) : ℤ) =
        some ((ss.map fun t => (t.accumulated_muts : ℤ) - 1).foldl max
          ((s.accumulated_muts : ℤ) - 1))
      exact congrArg some (by simpa [Function.comp] using hfold)
  · rw [min_accumulated_muts, specShiftedMin]
    cases hsec : L.secondary with
    | nil => rfl
    | cons s ss =>
      have hall : ∀ a ∈ ss.map fun t => t.accumulated_muts, 1 ≤ a := by
        intro a ha
        simp only [List.mem_map] at ha
        obtain ⟨t, ht, rfl⟩ := ha
        exact hacc t (by simp [hsec, ht])
      have hs1 : 1 ≤ s.accumulated_muts := hacc s (by simp [hsec])
      have hfold := foldl_min_shift_cast (ss.map fun t => t.accumulated_muts)
        s.accumulated_muts hs1 hall
      simp only [List.map_map] at hfold
      show some ((((ss.map fun t => t.accumulated_muts - 1).foldl min
          (s.accumulated_muts - 1)) : ℕ) : ℤ) =
        some ((ss.map fun t => (t.accumulated_muts : ℤ) - 1).foldl min
          ((s.accumulated_muts : ℤ) - 1))
      exact congrArg some (by simpa [Function.comp] using hfold)
  · rw [mean_accumulated_muts, specShiftedMean,
      zip_mean_shift_cast L.N L.secondary hacc]

/-- A concrete two-lineage population with accumulated counts 1 and 2. -/
def popC6 : LineagesData :=
  { N := [3, 1], W := [1, 1], U := [0, 0]
    secondary := [⟨0, 1, 0, 1, 1⟩, ⟨0, 2, 0, 2, 2⟩]
    unique_id_counter := 2 }

/-- Evaluation of `C6_summaries_shifted` on a concrete two-lineage
population. -/
theorem C6_witness :
    stdev_accumulated_muts popC6 = specShiftedStdev popC6 ∧
    (max_accumulated_muts popC6).map (fun v : ℕ => (v : ℤ)) = specShiftedMax popC6 ∧
    (min_accumulated_muts popC6).map (fun v : ℕ => (v : ℤ)) = specShiftedMin popC6 ∧
    mean_accumulated_muts popC6 = specShiftedMean popC6 :=
  C6_summaries_shifted popC6 (by norm_num [popC6]) rfl
    (by intro s hs
        simp only [popC6, List.mem_cons, List.not_mem_nil, or_false] at hs
        rcases hs with rfl | rfl <;> norm_num)

/-- The in-place value update of the mutation map preserves its keys. -/
theorem assocUpdate_keys {α : Type} (l : List (ℕ × α)) (k : ℕ) (f : α → α) :
    (assocUpdate l k f).map (·.1) = l.map (·.1) := by
  unfold assocUpdate
  rw [List.map_map]
  apply List.map_congr_left
  intro p _
  by_cases h : p.1 = k <;> simp [h]

/-- The background-chain walk preserves the keys of the mutation map. -/
theorem chainWalk_keys (fuel : ℕ) : ∀ (map : List (ℕ × Mutation)) (id Nval : _),
    (chainWalk fuel map id Nval).map (·.1) = map.map (·.1) := by
  induction fuel with
  | zero => intro map id Nval; rfl
  | succ fuel ih =>
    intro map id Nval
    rw [chainWalk]
    cases assocGet map id with
    | none => rfl
    | some m => rw [ih, assocUpdate_keys]

/-- The flag reset and all chain walks of `update_sizes` preserve the keys of
the mutation map. -/
theorem postWalkMap_keys (sd : MutationsData) (pd : LineagesData) :
    (postWalkMap sd pd).map (·.1) = sd.muts.map (·.1) := by
  unfold postWalkMap
  have hfold : ∀ (ps : List (ℝ × SecondaryLineageData)) (m0 : List (ℕ × Mutation)),
      ((ps.foldl (fun map p => chainWalk (map.length + 1) map p.2.id p.1) m0).map
        (·.1)) = m0.map (·.1) := by
    intro ps
    induction ps with
    | nil => intro m0; rfl
    | cons p ps ih => intro m0; rw [List.foldl_cons, ih, chainWalk_keys]
  rw [hfold, List.map_map]
  rfl

/-- A key is found in the association-list model iff it occurs among the
stored keys. -/
theorem assocGet_isSome_iff {α : Type} (l : List (ℕ × α)) (k : ℕ) :
    (assocGet l k).isSome ↔ k ∈ l.map (·.1) := by
  induction l with
  | nil => simp [assocGet]
  | cons p ps ih =>
    by_cases h : p.1 = k
    · simp [assocGet, List.find?_cons, h]
    · have h' : k ≠ p.1 := fun hh => h hh.symm
      simp [assocGet, List.find?_cons, h, h'] at ih ⊢

/-- C4: A mutation tracked on entry to `update_sizes` is moved from the
active map to `pruned_muts` iff, after the per-lineage background-chain
walks, its `just_updated` flag is still false (extinct this transfer) or its
last recorded population is within floating-point epsilon of the total
population (fixed); every walked entry ends up in exactly one of the active
map and `pruned_muts` (the driver clears `pruned_muts` before each step,
giving the entry precondition), and the walks preserve the tracked key
set. -/
theorem C4_update_sizes_pruning (π : ExtractOrder) (sd : MutationsData)
    (pd : LineagesData) (hpruned : sd.pruned_muts = []) :
    (∀ k m, (k, m) ∈ postWalkMap sd pd →
      (((k, m) ∈ (update_sizes π sd pd).muts ↔ ¬ prunable pd.N.sum m) ∧
       (m ∈ (update_sizes π sd pd).pruned_muts ↔ prunable pd.N.sum m))) ∧
    (∀ k m, (k, m) ∈ postWalkMap sd pd →
      (k, m) ∈ (update_sizes π sd pd).muts ∨
        m ∈ (update_sizes π sd pd).pruned_muts) ∧
    (∀ k m, (k, m) ∈ (update_sizes π sd pd).muts →
      m ∉ (update_sizes π sd pd).pruned_muts) ∧
    (∀ k, (assocGet (postWalkMap sd pd) k).isSome ↔
      (assocGet sd.muts k).isSome) := by
  have hpm : (update_sizes π sd pd).pruned_muts =
      ((π.1 (postWalkMap sd pd)).filter fun km =>
        decide (prunable pd.N.sum km.2)).map (·.2) := by
    simp [update_sizes, hpruned]
  have hmm : (update_sizes π sd pd).muts =
      (postWalkMap sd pd).filter fun km =>
        !decide (prunable pd.N.sum km.2) := by
    simp [update_sizes]
  refine ⟨?_, ?_, ?_, ?_⟩
  · intro k m hkm
    constructor
    · rw [hmm, List.mem_filter]
      simp [hkm]
    · rw [hpm]
      constructor
      · intro hmem
        simp only [List.mem_map] at hmem
        obtain ⟨km, hin, h2⟩ := hmem
        rw [List.mem_filter] at hin
        have h3 := hin.2
        simp only [decide_eq_true_eq] at h3
        rwa [h2] at h3
      · intro hp
        simp only [List.mem_map]
        exact ⟨(k, m), List.mem_filter.mpr
          ⟨(π.2 (postWalkMap sd pd)).mem_iff.mpr hkm, by simp [hp]⟩, rfl⟩
  · intro k m hkm
    by_cases hp : prunable pd.N.sum m
    · right
      rw [hpm]
      simp only [List.mem_map]
      exact ⟨(k, m), List.mem_filter.mpr
        ⟨(π.2 (postWalkMap sd pd)).mem_iff.mpr hkm, by simp [hp]⟩, rfl⟩
    · left
      rw [hmm, List.mem_filter]
      exact ⟨hkm, by simp [hp]⟩
  · intro k m hin hout
    rw [hmm, List.mem_filter] at hin
    rw [hpm] at hout
    simp only [List.mem_map] at hout
    obtain ⟨km, hkmf, h2⟩ := hout
    rw [List.mem_filter] at hkmf
    have h3 := hkmf.2
    have h4 := hin.2
    simp only [decide_eq_true_eq] at h3
    simp only [Bool.not_eq_eq_eq_not, Bool.not_true, decide_eq_false_iff_not] at h4
    rw [h2] at h3
    exact h4 h3
  · intro k
    rw [assocGet_isSome_iff, assocGet_isSome_iff, postWalkMap_keys]

/-- A concrete single-entry mutation map about to be updated. -/
def sdC4 : MutationsData :=
  { muts := [(1, ⟨1, 0, 0, 0, 0, [], 1, false⟩)]
    pruned_muts := []
    on_transfer := 0 }

/-- Evaluation of `C4_update_sizes_pruning` on a concrete tracker and
population: the key-preservation clause at the tracked key 1. -/
theorem C4_witness :
    (assocGet (postWalkMap sdC4 singleMarkerPop) 1).isSome ↔
      (assocGet sdC4.muts 1).isSome :=
  (C4_update_sizes_pruning idExtract sdC4 singleMarkerPop rfl).2.2.2 1

/-- A dilution factor of exactly 2 yields zero Phase-1 doublings. -/
theorem phase1_doublings_two (cfg : SimConfig) (h2 : cfg.dilution_factor = 2) :
    phase_1_doublings_required cfg = .ok 0 := by
  rw [phase_1_doublings_required, if_neg (not_not_intro (by rw [h2])), h2,
    Real.logb_self_eq_one (by norm_num)]
  norm_num

/-- A dilution factor of exactly 100 yields six Phase-1 doublings. -/
theorem phase1_doublings_hundred (cfg : SimConfig)
    (h100 : cfg.dilution_factor = 100) :
    phase_1_doublings_required cfg = .ok 6 := by
  obtain ⟨hlo, hhi⟩ := logb_two_hundred_bounds
  have hfloor : ⌊Real.logb 2 (100 : ℝ)⌋ = 6 := by
    rw [Int.floor_eq_iff]
    constructor
    · push_cast; linarith
    · push_cast; linarith
  have hfr : ¬ Int.fract (Real.logb 2 (100 : ℝ)) < 0.5 := by
    rw [Int.fract, hfloor]
    push_cast
    intro hcon
    linarith
  rw [phase_1_doublings_required, if_neg (not_not_intro (by rw [h100]; norm_num)),
    h100]
  simp only [hfloor]
  rw [if_neg hfr]
  rfl

/-- The internal configuration computed from the concrete scenario
configuration. -/
def icScen1 : InternalSimConfig :=
  { inner := cfgScenario1
    total_mutation_rate := 0 + 0 + 0
    dilution_coefficient := (100 : ℝ)⁻¹
    phase_1_doublings := 6
    mutation_type_index_distribution := none }

/-- The concrete scenario configuration passes internal-configuration
construction with six Phase-1 doublings and no mutation-type
distribution. -/
theorem icScen1_new : InternalSimConfig.new cfgScenario1 = .ok icScen1 := by
  simp only [InternalSimConfig.new, phase1_doublings_hundred cfgScenario1 rfl]
  rw [if_neg (by norm_num [cfgScenario1])]
  rfl

/-- The founder population size of the concrete scenario:
`round(5e8 / 100 / 2) = 2_500_000`. -/
theorem scen1_founder_N :
    ((round ((5e8 : ℝ) * (100 : ℝ)⁻¹ / ((2 : ℕ) : ℝ)) : ℤ) : ℝ) = 2500000 := by
  have hval : (5e8 : ℝ) * (100 : ℝ)⁻¹ / ((2 : ℕ) : ℝ) = ((2500000 : ℤ) : ℝ) := by
    push_cast
    norm_num
  rw [hval, round_intCast]
  norm_num

/-- C3: With the configuration `replicates = 1, transfers = 0, markers = 2,
D = 100`, all mutation rates zero, `Nmax = 5e8`, seed 42, the driver emits
exactly one snapshot within its first two `next_state` calls (the second call
returns nothing), with replicate 1, transfer 0, `end_of_replicate` set,
containing exactly two lineages with `N = 2_500_000`, `W = 1` and markers 1
and 2. -/
theorem C3_concrete_scenario {σ : Type} (O : DistrOracle σ) (π : ExtractOrder)
    (track : Bool) (e : σ) :
    (snapshotSeq O π cfgScenario1 track e 2).length = 1 ∧
    (snapshotSeq O π cfgScenario1 track e 2).map (fun st => st.replicate) = [1] ∧
    (snapshotSeq O π cfgScenario1 track e 2).map (fun st => st.transfer) = [0] ∧
    (snapshotSeq O π cfgScenario1 track e 2).map (fun st => st.end_of_replicate) =
      [true] ∧
    (snapshotSeq O π cfgScenario1 track e 2).map (fun st => st.lineages.N) =
      [[2500000, 2500000]] ∧
    (snapshotSeq O π cfgScenario1 track e 2).map (fun st => st.lineages.W) =
      [[1, 1]] ∧
    (snapshotSeq O π cfgScenario1 track e 2).map
      (fun st => st.lineages.secondary.map fun s => s.marker) = [[1, 2]] ∧
    (snapshotSeq O π cfgScenario1 track e 2).map (fun st => st.mutations.isSome) =
      [track] := by
  have hseq : snapshotSeq O π cfgScenario1 track e 2 = runSnapshots O π 2
      { replicate := 0, transfer := 0, cfg := icScen1
        lineages := LineagesData.default
        mutations := if track then some MutationsData.default else none
        rng := default_sim_rng O cfgScenario1 e } := by
    simp only [snapshotSeq, SimulationHandler.new, icScen1_new]
  refine ⟨?_, ?_, ?_, ?_, ?_, ?_, ?_, ?_⟩
  · rw [hseq]; rfl
  · rw [hseq]; rfl
  · rw [hseq]; rfl
  · rw [hseq]; rfl
  · rw [hseq,
      show (runSnapshots O π 2
        { replicate := 0, transfer := 0, cfg := icScen1
          lineages := LineagesData.default
          mutations := if track then some MutationsData.default else none
          rng := default_sim_rng O cfgScenario1 e }).map (fun st => st.lineages.N) =
        [[((round ((5e8 : ℝ) * (100 : ℝ)⁻¹ / ((2 : ℕ) : ℝ)) : ℤ) : ℝ),
          ((round ((5e8 : ℝ) * (100 : ℝ)⁻¹ / ((2 : ℕ) : ℝ)) : ℤ) : ℝ)]] from rfl,
      scen1_founder_N]
  · rw [hseq]; rfl
  · rw [hseq]; rfl
  · rw [hseq]
    cases track <;> rfl

/-- A configuration requesting deleterious mutations: rate 1/10, dilution
factor 2, zero transfers, otherwise like the concrete scenario. -/
def cfgC8 : SimConfig :=
  { replicates := 1
    transfers := 0
    markers := 2
    dilution_factor := 2
    beneficial_mutation_rate := 0
    neutral_mutation_rate := 0
    deleterious_mutation_rate := 1 / 10
    mutation_rate_mutation_rate := 0
    initial_beneficial_mutation_size := 0.015873
    deleterious_mutation_size_factor := 0
    mutation_rate_mutation_size_factor := 0
    diminishing_returns_epistasis_strength := 1
    seed := some 42
    max_pop_size := 5e8 }

/-- The internal configuration computed from `cfgC8`. -/
def icC8 : InternalSimConfig :=
  { inner := cfgC8
    total_mutation_rate := 0 + 0 + 1 / 10
    dilution_coefficient := (2 : ℝ)⁻¹
    phase_1_doublings := 0
    mutation_type_index_distribution := some [0, 0, 1 / 10] }

/-- The deleterious-rate configuration passes internal-configuration
construction. -/
theorem icC8_new : InternalSimConfig.new cfgC8 = .ok icC8 := by
  simp only [InternalSimConfig.new, phase1_doublings_two cfgC8 rfl]
  rw [if_pos (by norm_num [cfgC8])]
  rw [weightedIndexNew, if_pos ?_]
  · rfl
  · refine ⟨by simp, ?_, by norm_num [cfgC8]⟩
    intro w hw
    simp only [cfgC8, List.mem_cons, List.not_mem_nil, or_false] at hw
    rcases hw with rfl | rfl | rfl <;> norm_num

/-- Counterexample to C8: a configuration with a positive deleterious
mutation rate does not fail at construction — `InternalSimConfig::new`
succeeds — and the run proceeds, emitting a snapshot. -/
theorem C8_counterexample :
    InternalSimConfig.new cfgC8 = .ok icC8 ∧
    (snapshotSeq trivOracle idExtract cfgC8 false () 2).length = 1 := by
  refine ⟨icC8_new, ?_⟩
  have hseq : snapshotSeq trivOracle idExtract cfgC8 false () 2 =
      runSnapshots trivOracle idExtract 2
      { replicate := 0, transfer := 0, cfg := icC8
        lineages := LineagesData.default
        mutations := none
        rng := default_sim_rng trivOracle cfgC8 () } := by
    simp only [snapshotSeq, SimulationHandler.new, icC8_new]
    rfl
  rw [hseq]
  rfl

/-- C8 (amended): Requesting a deleterious mutation is not rejected at
configuration time: for every configuration with nonnegative beneficial and
neutral rates, a positive deleterious rate and a valid dilution factor,
`InternalSimConfig::new` succeeds with the deleterious rate in the sampling
weights; the explicit hard failure happens lazily, when a deleterious
mutation is actually sampled inside `new_mutant` (the `todo!` panic). -/
theorem C8_unsupported_type_lazy_failure {σ : Type} (O : DistrOracle σ)
    (cfg : SimConfig)
    (hD : 2 ≤ cfg.dilution_factor)
    (hb : 0 ≤ cfg.beneficial_mutation_rate)
    (hn : 0 ≤ cfg.neutral_mutation_rate)
    (hdel : 0 < cfg.deleterious_mutation_rate) :
    (∃ ic : InternalSimConfig, InternalSimConfig.new cfg = .ok ic ∧
      ic.mutation_type_index_distribution =
        some [cfg.beneficial_mutation_rate, cfg.neutral_mutation_rate,
          cfg.deleterious_mutation_rate]) ∧
    (∀ (ic : InternalSimConfig) (parent : Lineage) (k : ℕ) (st st2 : σ),
      sample_mutation_type ic O st = some (MutationType.Deleterious, st2) →
      new_mutant O parent (k + 1) ic st = .error .todoDeleterious) := by
  constructor
  · obtain ⟨p1, hph⟩ : ∃ p1, phase_1_doublings_required cfg = .ok p1 :=
      ⟨_, by rw [phase_1_doublings_required, if_neg (not_not_intro hD)]⟩
    have hwi : weightedIndexNew [cfg.beneficial_mutation_rate,
        cfg.neutral_mutation_rate, cfg.deleterious_mutation_rate] =
        .ok [cfg.beneficial_mutation_rate, cfg.neutral_mutation_rate,
          cfg.deleterious_mutation_rate] := by
      rw [weightedIndexNew, if_pos ?_]
      refine ⟨by simp, ?_,
        by simp only [List.sum_cons, List.sum_nil, add_zero]
           exact ne_of_gt (by linarith)⟩
      intro w hw
      simp only [List.mem_cons, List.not_mem_nil, or_false] at hw
      rcases hw with rfl | rfl | rfl <;> linarith
    have hnew : InternalSimConfig.new cfg = .ok
        { inner := cfg
          total_mutation_rate := cfg.beneficial_mutation_rate +
            cfg.neutral_mutation_rate + cfg.deleterious_mutation_rate
          dilution_coefficient := cfg.dilution_factor⁻¹
          phase_1_doublings := p1
          mutation_type_index_distribution :=
            some [cfg.beneficial_mutation_rate, cfg.neutral_mutation_rate,
              cfg.deleterious_mutation_rate] } := by
      simp only [InternalSimConfig.new, hph, hwi]
      rw [if_pos (by linarith)]
    exact ⟨_, hnew, rfl⟩
  · intro ic parent k st st2 hs
    rw [new_mutant, newMutantLoop, hs]

/-- Evaluation of `C8_unsupported_type_lazy_failure` on the concrete
deleterious-rate configuration. -/
theorem C8_witness :
    (∃ ic : InternalSimConfig, InternalSimConfig.new cfgC8 = .ok ic ∧
      ic.mutation_type_index_distribution =
        some [cfgC8.beneficial_mutation_rate, cfgC8.neutral_mutation_rate,
          cfgC8.deleterious_mutation_rate]) ∧
    (∀ (ic : InternalSimConfig) (parent : Lineage) (k : ℕ) (st st2 : Unit),
      sample_mutation_type ic trivOracle st = some (MutationType.Deleterious, st2) →
      new_mutant trivOracle parent (k + 1) ic st = .error .todoDeleterious) :=
  C8_unsupported_type_lazy_failure trivOracle cfgC8
    (by norm_num [cfgC8]) (by norm_num [cfgC8]) (by norm_num [cfgC8])
    (by norm_num [cfgC8])

/-- If every lineage rate equals a nonpositive total and the deltas are
nonnegative, the expected-mutation-count total is nonpositive. -/
theorem zipWith_rate_sum_nonpos (U D : List ℝ) (T : ℝ)
    (hU : ∀ u ∈ U, u = T) (hD : ∀ d ∈ D, 0 ≤ d) (hT : T ≤ 0) :
    (List.zipWith (fun u n => u * n * 2) U D).sum ≤ 0 := by
  induction U generalizing D with
  | nil => simp
  | cons u us ih =>
    cases D with
    | nil => simp
    | cons d ds =>
      simp only [List.zipWith_cons_cons, List.sum_cons]
      have hu : u = T := hU u (by simp)
      have hd : 0 ≤ d := hD d (by simp)
      have h1 : u * d * 2 ≤ 0 := by nlinarith
      have h2 := ih ds (fun w hw => hU w (by simp [hw]))
        fun x hx => hD x (by simp [hx])
      linarith

/-- C10: In `add_mutants`, whenever the sampled Poisson number of mutations
is nonzero (for a uniform draw below 1, as `rand` guarantees), some lineage
has a positive mutation rate, hence the configuration's total mutation rate
is positive, `sample_mutation_type` always returns a value, and the `unwrap`
inside `new_mutant` can never panic.  The hypotheses are the driver
invariants: the internal configuration comes from `InternalSimConfig::new`,
every lineage's `U` equals the configured total rate, and the growth deltas
are nonnegative. -/
theorem C10_new_mutant_unwrap_safe {σ : Type} (O : DistrOracle σ)
    (c0 : SimConfig) (cfg : InternalSimConfig) (L : LineagesData)
    (delta_N : List ℝ) (st : σ)
    (hc : InternalSimConfig.new c0 = .ok cfg)
    (hU : ∀ u ∈ L.U, u = cfg.total_mutation_rate)
    (hd : ∀ d ∈ delta_N, 0 ≤ d)
    (hu : (O.genf64 st).1 < 1)
    (hK : (poisson O (expected_mutation_counts L delta_N).sum st).1 ≠ 0) :
    (∃ u ∈ L.U, 0 < u) ∧ 0 < cfg.total_mutation_rate ∧
    (∀ st2 : σ, (sample_mutation_type cfg O st2).isSome) ∧
    (∀ (parent : Lineage) (order : ℕ) (st2 : σ),
      new_mutant O parent order cfg st2 ≠ .error .unwrapNone) := by
  have hSpos : 0 < (expected_mutation_counts L delta_N).sum := by
    by_contra hnot
    push_neg at hnot
    have hdisp : (poisson O (expected_mutation_counts L delta_N).sum st).1 =
        directPoissonValue (expected_mutation_counts L delta_N).sum
          (O.genf64 st).1 := by
      rw [poisson, if_pos (le_trans hnot (by norm_num))]
      rfl
    have h0mem : uSeq (expected_mutation_counts L delta_N).sum
        (O.genf64 st).1 0 ≤ pSeq (expected_mutation_counts L delta_N).sum 0 := by
      rw [uSeq, pSeq]
      have hone : (1 : ℝ) ≤ Real.exp (-(expected_mutation_counts L delta_N).sum) :=
        Real.one_le_exp (by linarith)
      linarith
    exact hK (by rw [hdisp, directPoissonValue,
      Nat.sInf_eq_zero.mpr (Or.inl h0mem)])
  have hTpos : 0 < cfg.total_mutation_rate := by
    by_contra hnot
    push_neg at hnot
    have hle := zipWith_rate_sum_nonpos L.U delta_N cfg.total_mutation_rate
      hU hd hnot
    rw [show expected_mutation_counts L delta_N =
      List.zipWith (fun u n => u * n * 2) L.U delta_N from rfl] at hSpos
    linarith
  have hex : ∃ u ∈ L.U, 0 < u := by
    cases hLU : L.U with
    | nil =>
      exfalso
      rw [show expected_mutation_counts L delta_N =
        List.zipWith (fun u n => u * n * 2) L.U delta_N from rfl, hLU] at hSpos
      simp at hSpos
    | cons u us =>
      exact ⟨u, by simp [hLU], by rw [hU u (by simp [hLU])]; exact hTpos⟩
  have hdist : ∃ w, cfg.mutation_type_index_distribution = some w := by
    simp only [InternalSimConfig.new] at hc
    cases hph : phase_1_doublings_required c0 with
    | error e => rw [hph] at hc; simp at hc
    | ok p1 =>
      rw [hph] at hc
      simp only [] at hc
      by_cases hpos : 0 < c0.beneficial_mutation_rate + c0.neutral_mutation_rate
          + c0.deleterious_mutation_rate
      · rw [if_pos hpos] at hc
        cases hw : weightedIndexNew [c0.beneficial_mutation_rate,
            c0.neutral_mutation_rate, c0.deleterious_mutation_rate] with
        | error e => rw [hw] at hc; simp at hc
        | ok w =>
          rw [hw] at hc
          simp only [Except.ok.injEq] at hc
          exact ⟨w, by rw [← hc]⟩
      · rw [if_neg hpos] at hc
        simp only [Except.ok.injEq] at hc
        exfalso
        rw [← hc] at hTpos
        exact hpos hTpos
  obtain ⟨w, hw⟩ := hdist
  have hsome : ∀ st2 : σ, (sample_mutation_type cfg O st2).isSome := by
    intro st2
    simp [sample_mutation_type, hw]
  refine ⟨hex, hTpos, hsome, ?_⟩
  have hloop : ∀ (k : ℕ) (mutant : Lineage) (stx : σ),
      newMutantLoop O cfg k mutant stx ≠ .error .unwrapNone := by
    intro k
    induction k with
    | zero =>
      intro mutant stx
      rw [newMutantLoop]
      simp
    | succ k ih =>
      intro mutant stx
      rw [newMutantLoop]
      cases hs : sample_mutation_type cfg O stx with
      | none =>
        have := hsome stx
        rw [hs] at this
        simp at this
      | some p =>
        obtain ⟨mt, st3⟩ := p
        cases mt with
        | Beneficial => exact ih _ _
        | Neutral => exact ih _ _
        | Deleterious => simp
        | MutationRate => simp
  intro parent order st2
  exact hloop order _ st2

/-- A configuration with beneficial rate 1 and dilution factor 2. -/
def cfgC10 : SimConfig :=
  { replicates := 1
    transfers := 0
    markers := 2
    dilution_factor := 2
    beneficial_mutation_rate := 1
    neutral_mutation_rate := 0
    deleterious_mutation_rate := 0
    mutation_rate_mutation_rate := 0
    initial_beneficial_mutation_size := 0.015873
    deleterious_mutation_size_factor := 0
    mutation_rate_mutation_size_factor := 0
    diminishing_returns_epistasis_strength := 1
    seed := some 7
    max_pop_size := 5e8 }

/-- The internal configuration computed from `cfgC10`. -/
def icC10 : InternalSimConfig :=
  { inner := cfgC10
    total_mutation_rate := 1 + 0 + 0
    dilution_coefficient := (2 : ℝ)⁻¹
    phase_1_doublings := 0
    mutation_type_index_distribution := some [1, 0, 0] }

/-- The beneficial-rate configuration passes internal-configuration
construction. -/
theorem icC10_new : InternalSimConfig.new cfgC10 = .ok icC10 := by
  simp only [InternalSimConfig.new, phase1_doublings_two cfgC10 rfl]
  rw [if_pos (by norm_num [cfgC10])]
  rw [weightedIndexNew, if_pos ?_]
  · rfl
  · refine ⟨by simp, ?_, by norm_num [cfgC10]⟩
    intro w hw
    simp only [cfgC10, List.mem_cons, List.not_mem_nil, or_false] at hw
    rcases hw with rfl | rfl | rfl <;> norm_num

/-- A single lineage of size 1 with mutation rate 1. -/
def LC10 : LineagesData :=
  { N := [1], W := [1], U := [1]
    secondary := [⟨0, 1, 0, 1, 1⟩]
    unique_id_counter := 1 }

/-- Evaluation of `C10_new_mutant_unwrap_safe` on a concrete configuration
and lineage, with a nonzero direct-inversion Poisson draw. -/
theorem C10_witness :
    (∃ u ∈ LC10.U, 0 < u) ∧ 0 < icC10.total_mutation_rate ∧
    (∀ st2 : Unit, (sample_mutation_type icC10 trivOracle st2).isSome) ∧
    (∀ (parent : Lineage) (order : ℕ) (st2 : Unit),
      new_mutant trivOracle parent order icC10 st2 ≠ .error .unwrapNone) := by
  refine C10_new_mutant_unwrap_safe trivOracle cfgC10 icC10 LC10 [1] ()
    icC10_new ?_ ?_ (by norm_num [trivOracle]) ?_
  · intro u hu
    simp only [LC10, List.mem_cons, List.not_mem_nil, or_false] at hu
    rw [hu]
    norm_num [icC10]
  · intro d hd
    simp only [List.mem_cons, List.not_mem_nil, or_false] at hd
    rw [hd]
    norm_num
  · have hS : (expected_mutation_counts LC10 [1]).sum = 2 := by
      norm_num [expected_mutation_counts, LC10]
    rw [hS]
    have hdisp : (poisson trivOracle (2 : ℝ) ()).1 =
        directPoissonValue 2 (1 / 2) := by
      rw [poisson, if_pos (by norm_num)]
      rfl
    rw [hdisp]
    have hexp3 : (3 : ℝ) ≤ Real.exp 2 := by
      nlinarith [Real.add_one_le_exp (2 : ℝ)]
    have hexp10 : Real.exp 2 < 10 := by
      have h1 := Real.exp_one_lt_d9
      have h2 : Real.exp 2 = Real.exp 1 * Real.exp 1 := by
        rw [← Real.exp_add]
        norm_num
      nlinarith [Real.exp_pos 1]
    have hpos := Real.exp_pos 2
    have hinv : Real.exp (-2) = (Real.exp 2)⁻¹ := Real.exp_neg 2
    intro h0
    rcases Nat.sInf_eq_zero.mp h0 with hmem | hempty
    · have : (1 : ℝ) / 2 ≤ Real.exp (-2) := by
        simpa [uSeq, pSeq] using hmem
      rw [hinv] at this
      have hmul : Real.exp 2 * (Real.exp 2)⁻¹ = 1 :=
        mul_inv_cancel₀ (ne_of_gt hpos)
      nlinarith
    · have h2mem : (2 : ℕ) ∈ {k : ℕ | uSeq 2 (1 / 2) k ≤ pSeq 2 k} := by
        have hu2 : uSeq 2 (1 / 2 : ℝ) 2 = 1 / 2 - 3 * Real.exp (-2) := by
          show uSeq 2 (1 / 2 : ℝ) 1 - pSeq 2 1 = _
          show uSeq 2 (1 / 2 : ℝ) 0 - pSeq 2 0 - pSeq 2 1 = _
          rw [uSeq, pSeq, pSeq, pSeq]
          push_cast
          ring
        have hp2 : pSeq 2 2 = 2 * Real.exp (-2) := by
          rw [pSeq, pSeq, pSeq]
          push_cast
          ring
        have hinv10 : (10 : ℝ)⁻¹ < (Real.exp 2)⁻¹ :=
          inv_lt_inv_of_lt hpos hexp10
        simp only [Set.mem_setOf_eq, hu2, hp2, hinv]
        nlinarith
      rw [Set.eq_empty_iff_forall_not_mem] at hempty
      exact hempty 2 h2mem

/-! ## Determinism up to the hash map's extraction order

The hashbrown map's iteration order (an `ExtractOrder`) is chosen per map
instance by the randomly seeded default hasher and is not a function of the
configuration or seed.  It influences exactly one observable: the order of
the `pruned_muts` vector filled by `extract_if`.  The relations below say
two states agree in every field except that their recently pruned lists are
permutations of each other; the lemmas propagate this through one driver
step, using that the driver clears `pruned_muts` before each step, so the
mechanics of the two runs always execute on equal inputs. -/

/-- Tracker relation: equal active maps and transfer counters, recently
pruned lists equal up to permutation. -/
def MDRel (md1 md2 : MutationsData) : Prop :=
  md1.muts = md2.muts ∧ md1.on_transfer = md2.on_transfer ∧
    md1.pruned_muts.Perm md2.pruned_muts

/-- `MDRel` lifted to optional trackers. -/
def OMDRel : Option MutationsData → Option MutationsData → Prop
  | none, none => True
  | some md1, some md2 => MDRel md1 md2
  | _, _ => False

/-- Handler relation: all fields equal, trackers related by `OMDRel`. -/
def HRel {σ : Type} (h1 h2 : SimulationHandler σ) : Prop :=
  h1.replicate = h2.replicate ∧ h1.transfer = h2.transfer ∧ h1.cfg = h2.cfg ∧
    h1.lineages = h2.lineages ∧ h1.rng = h2.rng ∧
    OMDRel h1.mutations h2.mutations

/-- Snapshot relation: all fields equal, trackers related by `OMDRel`. -/
def SRel (s1 s2 : SimulationState) : Prop :=
  s1.replicate = s2.replicate ∧ s1.transfer = s2.transfer ∧
    s1.end_of_replicate = s2.end_of_replicate ∧ s1.lineages = s2.lineages ∧
    OMDRel s1.mutations s2.mutations

/-- `MDRel` is reflexive. -/
theorem MDRel_refl (md : MutationsData) : MDRel md md :=
  ⟨rfl, rfl, List.Perm.refl _⟩

/-- `OMDRel` is reflexive. -/
theorem OMDRel_refl (m : Option MutationsData) : OMDRel m m := by
  cases m with
  | none => trivial
  | some md => exact MDRel_refl md

/-- `HRel` is reflexive. -/
theorem HRel_refl {σ : Type} (h : SimulationHandler σ) : HRel h h :=
  ⟨rfl, rfl, rfl, rfl, rfl, OMDRel_refl h.mutations⟩

/-- `update_sizes` on related trackers and any two extraction orders yields
related trackers: the retained map and counter are order-independent, and the
appended pruned segments are permutations of the canonical filtered list. -/
theorem update_sizes_rel (π1 π2 : ExtractOrder) (sd1 sd2 : MutationsData)
    (pd : LineagesData) (h : MDRel sd1 sd2) :
    MDRel (update_sizes π1 sd1 pd) (update_sizes π2 sd2 pd) := by
  obtain ⟨hm, ht, hp⟩ := h
  have hpw : postWalkMap sd1 pd = postWalkMap sd2 pd := by
    unfold postWalkMap
    rw [hm]
  refine ⟨?_, ?_, ?_⟩
  · simp only [update_sizes, hpw]
  · simp only [update_sizes, ht]
  · simp only [update_sizes, hpw]
    refine List.Perm.append hp ?_
    refine List.Perm.map _ ?_
    exact List.Perm.filter _ ((π1.2 _).trans (π2.2 _).symm)

/-- Clearing `pruned_muts` and recording the transfer erases the only
difference between related trackers. -/
theorem clear_set_transfer_eq (m1 m2 : Option MutationsData) (t : ℕ)
    (h : OMDRel m1 m2) :
    (m1.map fun (md : MutationsData) =>
      MutationsData.set_transfer { md with pruned_muts := [] } t) =
    (m2.map fun (md : MutationsData) =>
      MutationsData.set_transfer { md with pruned_muts := [] } t) := by
  cases m1 with
  | none =>
    cases m2 with
    | none => rfl
    | some md2 => exact absurd h (by simp [OMDRel])
  | some md1 =>
    cases m2 with
    | none => exact absurd h (by simp [OMDRel])
    | some md2 =>
      obtain ⟨hm, ht, hp⟩ := h
      simp only [Option.map, MutationsData.set_transfer, hm]

/-- Starting a replicate with two extraction orders from the same handler
yields related handlers. -/
theorem start_replicate_rel {σ : Type} (π1 π2 : ExtractOrder)
    (h : SimulationHandler σ) :
    HRel (h.start_replicate π1) (h.start_replicate π2) := by
  simp only [SimulationHandler.start_replicate]
  refine ⟨rfl, rfl, rfl, rfl, rfl, ?_⟩
  cases (LineagesData.for_sim_config h.cfg
      (h.mutations.map fun _ => MutationsData.default)).2 with
  | none => exact trivial
  | some md => exact update_sizes_rel π1 π2 md md _ (MDRel_refl md)

/-- Relation on fallible handler results. -/
def HERel {σ : Type} :
    Except SimPanic (SimulationHandler σ) →
      Except SimPanic (SimulationHandler σ) → Prop
  | .error e1, .error e2 => e1 = e2
  | .ok h1, .ok h2 => HRel h1 h2
  | _, _ => False

/-- Performing a transfer with two extraction orders from the same handler
yields related results: the mechanics take no extraction order, so both runs
compute identical lineages, RNG state and registrations, and only the final
`update_sizes` diverges — in pruned order alone. -/
theorem perform_transfer_rel {σ : Type} (O : DistrOracle σ)
    (π1 π2 : ExtractOrder) (h : SimulationHandler σ) :
    HERel (h.perform_transfer O π1) (h.perform_transfer O π2) := by
  simp only [SimulationHandler.perform_transfer]
  cases (List.range h.cfg.phase_1_doublings).foldl
      (fun acc _ => match acc with
        | .error e => .error e
        | .ok (L, m, st) => growth_phase_1 O h.cfg L m st)
      (Except.ok (h.lineages, h.mutations, h.rng)) with
  | error e => exact rfl
  | ok tri =>
    obtain ⟨L, m, st⟩ := tri
    dsimp only
    cases growth_phase_2 O h.cfg L m st with
    | error e => exact rfl
    | ok tri2 =>
      obtain ⟨L2, m2, st2⟩ := tri2
      refine ⟨rfl, rfl, rfl, rfl, rfl, ?_⟩
      cases m2 with
      | none => trivial
      | some md => exact update_sizes_rel π1 π2 md md L2 (MDRel_refl md)

/-- Relation on fallible `next_state` results. -/
def NRel {σ : Type} :
    Except SimPanic (Option (SimulationState × SimulationHandler σ)) →
      Except SimPanic (Option (SimulationState × SimulationHandler σ)) → Prop
  | .error e1, .error e2 => e1 = e2
  | .ok none, .ok none => True
  | .ok (some (s1, h1)), .ok (some (s2, h2)) => SRel s1 s2 ∧ HRel h1 h2
  | _, _ => False

/-- Reading the current state of related handlers and pairing it with them
gives related `next_state` results. -/
theorem state_pair_rel {σ : Type} (h1 h2 : SimulationHandler σ)
    (h : HRel h1 h2) :
    NRel (σ := σ) (.ok (h1.current_state.map fun st => (st, h1)))
      (.ok (h2.current_state.map fun st => (st, h2))) := by
  obtain ⟨hr, ht, hc, hl, hg, hm⟩ := h
  unfold SimulationHandler.current_state
  rw [hr, ht, hc, hl]
  by_cases h0 : 0 < h2.replicate
  · rw [if_pos h0, if_pos h0]
    exact ⟨⟨rfl, rfl, rfl, rfl, hm⟩, hr, ht, hc, hl, hg, hm⟩
  · rw [if_neg h0, if_neg h0]
    trivial

/-- One driver step on related handlers yields related results: the step
clears `pruned_muts` first, so the two runs enter the mechanics with equal
states and diverge only in the order `update_sizes` appends pruned records. -/
theorem next_state_rel {σ : Type} (O : DistrOracle σ) (π1 π2 : ExtractOrder)
    (h1 h2 : SimulationHandler σ) (h : HRel h1 h2) :
    NRel (h1.next_state O π1) (h2.next_state O π2) := by
  obtain ⟨hr, ht, hc, hl, hg, hm⟩ := h
  cases h1 with
  | mk r1 t1 c1 l1 m1 g1 =>
    cases h2 with
    | mk r2 t2 c2 l2 m2 g2 =>
      dsimp only at hr ht hc hl hg hm
      subst hr ht hc hl hg
      simp only [SimulationHandler.next_state]
      have hcs : ((SimulationHandler.mk r1 t1 c1 l1 m1 g1).current_state.map
            fun st => st.end_of_replicate) =
          ((SimulationHandler.mk r1 t1 c1 l1 m2 g1).current_state.map
            fun st => st.end_of_replicate) := by
        unfold SimulationHandler.current_state
        by_cases h0 : 0 < r1
        · rw [if_pos h0, if_pos h0]
          rfl
        · rw [if_neg h0, if_neg h0]
      rw [hcs]
      by_cases hb : ((SimulationHandler.mk r1 t1 c1 l1 m2 g1).current_state.map
          fun st => st.end_of_replicate) = some false
      · rw [if_pos hb, if_pos hb]
        dsimp only
        rw [clear_set_transfer_eq m1 m2 (t1 + 1) hm]
        rw [if_neg (Nat.succ_ne_zero t1), if_neg (Nat.succ_ne_zero t1)]
        have hpt := perform_transfer_rel O π1 π2
          (SimulationHandler.mk r1 (t1 + 1) c1 l1
            (m2.map fun (md : MutationsData) =>
              MutationsData.set_transfer { md with pruned_muts := [] } (t1 + 1)) g1)
        cases e1 : SimulationHandler.perform_transfer O π1
            (SimulationHandler.mk r1 (t1 + 1) c1 l1
              (m2.map fun (md : MutationsData) =>
                MutationsData.set_transfer { md with pruned_muts := [] } (t1 + 1)) g1) with
        | error a =>
          cases e2 : SimulationHandler.perform_transfer O π2
              (SimulationHandler.mk r1 (t1 + 1) c1 l1
                (m2.map fun (md : MutationsData) =>
                  MutationsData.set_transfer { md with pruned_muts := [] } (t1 + 1)) g1) with
          | error b => rw [e1, e2] at hpt; exact hpt
          | ok h3 => rw [e1, e2] at hpt; exact hpt.elim
        | ok h3 =>
          cases e2 : SimulationHandler.perform_transfer O π2
              (SimulationHandler.mk r1 (t1 + 1) c1 l1
                (m2.map fun (md : MutationsData) =>
                  MutationsData.set_transfer { md with pruned_muts := [] } (t1 + 1)) g1) with
          | error b => rw [e1, e2] at hpt; exact hpt.elim
          | ok h3' =>
            rw [e1, e2] at hpt
            exact state_pair_rel h3 h3' hpt
      · rw [if_neg hb, if_neg hb]
        by_cases hrep : r1 < c1.inner.replicates
        · rw [if_pos hrep, if_pos hrep]
          dsimp only
          rw [clear_set_transfer_eq m1 m2 0 hm]
          rw [if_pos rfl, if_pos rfl]
          exact state_pair_rel _ _ (start_replicate_rel π1 π2
            (SimulationHandler.mk (r1 + 1) 0 c1 l1
              (m2.map fun (md : MutationsData) =>
                MutationsData.set_transfer { md with pruned_muts := [] } 0) g1))
        · rw [if_neg hrep, if_neg hrep]
          trivial

/-- Any number of driver steps on related handlers yields pointwise related
snapshot lists. -/
theorem runSnapshots_rel {σ : Type} (O : DistrOracle σ) (π1 π2 : ExtractOrder) :
    ∀ (n : ℕ) (h1 h2 : SimulationHandler σ), HRel h1 h2 →
      List.Forall₂ SRel (runSnapshots O π1 n h1) (runSnapshots O π2 n h2) := by
  intro n
  induction n with
  | zero => intro h1 h2 _; exact List.Forall₂.nil
  | succ n ih =>
    intro h1 h2 h
    have hns := next_state_rel O π1 π2 h1 h2 h
    simp only [runSnapshots]
    cases e1 : h1.next_state O π1 with
    | error a =>
      cases e2 : h2.next_state O π2 with
      | error b => exact List.Forall₂.nil
      | ok o =>
        rw [e1, e2] at hns
        cases o with
        | none => exact hns.elim
        | some p => obtain ⟨st, h'⟩ := p; exact hns.elim
    | ok o1 =>
      cases e2 : h2.next_state O π2 with
      | error b =>
        rw [e1, e2] at hns
        cases o1 with
        | none => exact hns.elim
        | some p => obtain ⟨st, h'⟩ := p; exact hns.elim
      | ok o2 =>
        rw [e1, e2] at hns
        cases o1 with
        | none =>
          cases o2 with
          | none => exact List.Forall₂.nil
          | some p => obtain ⟨st, h'⟩ := p; exact hns.elim
        | some p1 =>
          obtain ⟨st1, h1'⟩ := p1
          cases o2 with
          | none => exact hns.elim
          | some p2 =>
            obtain ⟨st2, h2'⟩ := p2
            obtain ⟨hs, hh⟩ := hns
            exact List.Forall₂.cons hs (ih h1' h2' hh)

/-- Pointwise related lists have equal images under any function constant on
the relation. -/
theorem forall₂_map_eq {α β : Type} {R : α → α → Prop} (f : α → β)
    (hf : ∀ a b, R a b → f a = f b) :
    ∀ {l1 l2 : List α}, List.Forall₂ R l1 l2 → l1.map f = l2.map f := by
  intro l1 l2 h
  induction h with
  | nil => rfl
  | cons hab _ ih => simp only [List.map_cons, hf _ _ hab, ih]

/-- C1 (amended): two simulation runs over the same oracle, from equal
configurations whose seed is set, produce snapshot sequences that agree in
length and field-wise in replicate, transfer, end-of-replicate flag, the full
lineages data, the active mutation maps and the transfer counters of the
mutation trackers — for any per-instance hash-map iteration orders and any OS
entropies, which the seeded runs never consult.  The recently pruned lists
are equal up to permutation (pointwise, via `SRel`): their order follows the
randomly seeded hash iteration order of `extract_if` and is not a function of
the configuration and seed. -/
theorem C1_determinism_up_to_prune_order {σ : Type} (O : DistrOracle σ)
    (π1 π2 : ExtractOrder) (cfg1 cfg2 : SimConfig) (track : Bool) (n s : ℕ)
    (e1 e2 : σ) (heq : cfg1 = cfg2) (hseed : cfg1.seed = some s) :
    List.Forall₂ SRel (snapshotSeq O π1 cfg1 track e1 n)
        (snapshotSeq O π2 cfg2 track e2 n) ∧
      (snapshotSeq O π1 cfg1 track e1 n).length =
        (snapshotSeq O π2 cfg2 track e2 n).length ∧
      (snapshotSeq O π1 cfg1 track e1 n).map (fun st => st.replicate) =
        (snapshotSeq O π2 cfg2 track e2 n).map (fun st => st.replicate) ∧
      (snapshotSeq O π1 cfg1 track e1 n).map (fun st => st.transfer) =
        (snapshotSeq O π2 cfg2 track e2 n).map (fun st => st.transfer) ∧
      (snapshotSeq O π1 cfg1 track e1 n).map (fun st => st.end_of_replicate) =
        (snapshotSeq O π2 cfg2 track e2 n).map (fun st => st.end_of_replicate) ∧
      (snapshotSeq O π1 cfg1 track e1 n).map (fun st => st.lineages) =
        (snapshotSeq O π2 cfg2 track e2 n).map (fun st => st.lineages) ∧
      (snapshotSeq O π1 cfg1 track e1 n).map
          (fun st => st.mutations.map fun md => md.muts) =
        (snapshotSeq O π2 cfg2 track e2 n).map
          (fun st => st.mutations.map fun md => md.muts) ∧
      (snapshotSeq O π1 cfg1 track e1 n).map
          (fun st => st.mutations.map fun md => md.on_transfer) =
        (snapshotSeq O π2 cfg2 track e2 n).map
          (fun st => st.mutations.map fun md => md.on_transfer) := by
  subst heq
  have hrng : default_sim_rng O cfg1 e1 = default_sim_rng O cfg1 e2 := by
    unfold default_sim_rng
    rw [hseed]
  have hnew : SimulationHandler.new O cfg1 track e1 =
      SimulationHandler.new O cfg1 track e2 := by
    unfold SimulationHandler.new
    cases InternalSimConfig.new cfg1 with
    | error e => rfl
    | ok icfg => rw [hrng]
  have hfa : List.Forall₂ SRel (snapshotSeq O π1 cfg1 track e1 n)
      (snapshotSeq O π2 cfg1 track e2 n) := by
    unfold snapshotSeq
    rw [hnew]
    cases SimulationHandler.new O cfg1 track e2 with
    | error e => exact List.Forall₂.nil
    | ok h0 => exact runSnapshots_rel O π1 π2 n h0 h0 (HRel_refl h0)
  have hmuts : ∀ a b, SRel a b →
      (a.mutations.map fun md => md.muts) =
        (b.mutations.map fun md => md.muts) := by
    intro a b hab
    obtain ⟨-, -, -, -, hm⟩ := hab
    cases ha : a.mutations with
    | none =>
      cases hb : b.mutations with
      | none => rfl
      | some md => rw [ha, hb] at hm; exact hm.elim
    | some md1 =>
      cases hb : b.mutations with
      | none => rw [ha, hb] at hm; exact hm.elim
      | some md2 =>
        rw [ha, hb] at hm
        obtain ⟨hmm, -, -⟩ := hm
        simp only [Option.map, hmm]
  have hot : ∀ a b, SRel a b →
      (a.mutations.map fun md => md.on_transfer) =
        (b.mutations.map fun md => md.on_transfer) := by
    intro a b hab
    obtain ⟨-, -, -, -, hm⟩ := hab
    cases ha : a.mutations with
    | none =>
      cases hb : b.mutations with
      | none => rfl
      | some md => rw [ha, hb] at hm; exact hm.elim
    | some md1 =>
      cases hb : b.mutations with
      | none => rw [ha, hb] at hm; exact hm.elim
      | some md2 =>
        rw [ha, hb] at hm
        obtain ⟨-, hto, -⟩ := hm
        simp only [Option.map, hto]
  refine ⟨hfa, hfa.length_eq, ?_, ?_, ?_, ?_, ?_, ?_⟩
  · exact forall₂_map_eq _ (fun a b hab => hab.1) hfa
  · exact forall₂_map_eq _ (fun a b hab => hab.2.1) hfa
  · exact forall₂_map_eq _ (fun a b hab => hab.2.2.1) hfa
  · exact forall₂_map_eq _ (fun a b hab => hab.2.2.2.1) hfa
  · exact forall₂_map_eq _ hmuts hfa
  · exact forall₂_map_eq _ hot hfa

/-! ## Concrete run refuting order-independence of `pruned_muts` -/

/-- Configuration for the extraction-order counterexample: one replicate, one
transfer, two markers, dilution factor 2, all mutation rates zero, `Nmax = 2`,
seed 3. -/
def cfgHash : SimConfig :=
  { replicates := 1
    transfers := 1
    markers := 2
    dilution_factor := 2
    beneficial_mutation_rate := 0
    neutral_mutation_rate := 0
    deleterious_mutation_rate := 0
    mutation_rate_mutation_rate := 0
    initial_beneficial_mutation_size := 0.015873
    deleterious_mutation_size_factor := 0
    mutation_rate_mutation_size_factor := 0
    diminishing_returns_epistasis_strength := 1
    seed := some 3
    max_pop_size := 2 }

/-- The internal configuration computed from `cfgHash`. -/
def icHash : InternalSimConfig :=
  { inner := cfgHash
    total_mutation_rate := 0 + 0 + 0
    dilution_coefficient := (2 : ℝ)⁻¹
    phase_1_doublings := 0
    mutation_type_index_distribution := none }

/-- `cfgHash` passes internal-configuration construction. -/
theorem icHash_new : InternalSimConfig.new cfgHash = .ok icHash := by
  simp only [InternalSimConfig.new, phase1_doublings_two cfgHash rfl]
  rw [if_neg (by norm_num [cfgHash])]
  rfl

/-- A counting RNG oracle over `ℕ`: the uniform double is 1/2, the binomial
keeps all cells except on the very first draw (which kills its lineage), and
the state counts the draws made.  Seeding lands at count 0. -/
def hashOracle : DistrOracle ℕ :=
  { genf64 := fun k => (1 / 2, k + 1)
    poissonLarge := fun _ k => (0, k + 1)
    binomial := fun n _ k => (if k = 0 then 0 else n, k + 1)
    expSample := fun _ k => (0, k + 1)
    uniformSample := fun _ _ k => (0, k + 1)
    weightedIndexSample := fun _ k => (0, k + 1)
    seedFromU64 := fun _ => 0 }

/-- The founder population size `round(Nmax / D / markers)` of the
counterexample run. -/
def hashNH : ℝ := ((round ((2 : ℝ) * (2 : ℝ)⁻¹ / ((2 : ℕ) : ℝ)) : ℤ) : ℝ)

/-- `round(2 * (1/2) / 2) = round(1/2) = 1` (ties round up). -/
theorem hashNH_eq : hashNH = 1 := by
  have h : (2 : ℝ) * (2 : ℝ)⁻¹ / ((2 : ℕ) : ℝ) = 1 / 2 := by norm_num
  unfold hashNH
  rw [h, round_eq]
  norm_num

/-- Secondary data of the marker-`i` founder lineage. -/
def hashSec (i : ℕ) : SecondaryLineageData :=
  { lambda := (0.015873 : ℝ)⁻¹
    id := i
    parent_id := 0
    marker := i
    accumulated_muts := 1 }

/-- Fitness delta of the founder marker mutations. -/
def hashDW : ℝ := 1 / 1 - 1

/-- The marker-`i` founder mutation as registered. -/
def hashMut (i : ℕ) : Mutation :=
  { id := i
    background_id := 0
    delta_W := hashDW
    delta_U := 0
    first_transfer := 0
    N := []
    order := 1
    just_updated := false }

/-- The lineage container after `for_sim_config` of the counterexample run. -/
def hashLseed : LineagesData :=
  { N := [hashNH, hashNH]
    W := [1, 1]
    U := [0 + 0 + 0, 0 + 0 + 0]
    secondary := [hashSec 1, hashSec 2]
    unique_id_counter := 2 }

/-- The mutation tracker after `for_sim_config` of the counterexample run. -/
def hashRegs : MutationsData :=
  { muts := [(1, hashMut 1), (2, hashMut 2)], pruned_muts := [], on_transfer := 0 }

/-- `for_sim_config` of the counterexample run evaluates to the two founder
lineages and their registered mutations. -/
theorem hashFS : LineagesData.for_sim_config icHash (some MutationsData.default) =
    (hashLseed, some hashRegs) := rfl

/-- The marker-`i` founder mutation after its first size walk. -/
def hashMutW (i : ℕ) : Mutation :=
  { id := i
    background_id := 0
    delta_W := hashDW
    delta_U := 0
    first_transfer := 0
    N := [hashNH]
    order := 1
    just_updated := true }

/-- The mutation map after the walks of the first `update_sizes`. -/
def hashM1 : List (ℕ × Mutation) := [(1, hashMutW 1), (2, hashMutW 2)]

/-- The walks of the first `update_sizes` evaluate to `hashM1`. -/
theorem hashPW1 : postWalkMap hashRegs hashLseed = hashM1 := rfl

/-- Neither founder mutation is prunable on the first transfer: both were
walked (flags set) and `|1 - 2| = 1` is no less than the f64 epsilon. -/
theorem hashM1_not_prunable : ∀ km ∈ hashM1, ¬ prunable hashLseed.N.sum km.2 := by
  have hsum : hashLseed.N.sum = 2 := by
    simp only [hashLseed, List.sum_cons, List.sum_nil, hashNH_eq]
    norm_num
  have habs : |(1 : ℝ) - 2| = 1 := by
    rw [abs_sub_comm]
    norm_num
  intro km hkm
  simp only [hashM1, List.mem_cons, List.not_mem_nil, or_false] at hkm
  rcases hkm with rfl | rfl <;>
  · rw [prunable, hsum]
    push_neg
    refine ⟨by simp [hashMutW], ?_⟩
    simp only [hashMutW, List.getLastD, hashNH_eq, habs, f64EPSILON]
    norm_num

/-- The mutation tracker after the first `update_sizes`. -/
def hashMd1 : MutationsData :=
  { muts := hashM1, pruned_muts := [], on_transfer := 0 }

/-- The first `update_sizes` of the counterexample run keeps both founder
mutations and prunes nothing, for every extraction order. -/
theorem hashUp1 (π : ExtractOrder) :
    update_sizes π hashRegs hashLseed = hashMd1 := by
  have hkeep : hashM1.filter
      (fun km => !decide (prunable hashLseed.N.sum km.2)) = hashM1 :=
    List.filter_eq_self.mpr fun a ha => by
      simp only [decide_eq_false (hashM1_not_prunable a ha), Bool.not_false]
  have hnil : ((π.1 hashM1).filter
      fun km => decide (prunable hashLseed.N.sum km.2)) = [] :=
    List.filter_eq_nil.mpr fun a ha => by
      simp only [decide_eq_true_eq]
      exact hashM1_not_prunable a ((π.2 hashM1).mem_iff.mp ha)
  simp only [update_sizes, hashPW1, hkeep, hnil, List.map_nil, List.append_nil]
  rfl

/-- The freshly constructed handler of the counterexample run. -/
def hashH0 : SimulationHandler ℕ :=
  { replicate := 0
    transfer := 0
    cfg := icHash
    lineages := LineagesData.default
    mutations := some MutationsData.default
    rng := 0 }

/-- The handler after the first driver step. -/
def hashH1 : SimulationHandler ℕ :=
  { replicate := 1
    transfer := 0
    cfg := icHash
    lineages := hashLseed
    mutations := some hashMd1
    rng := 0 }

/-- The snapshot emitted by the first driver step. -/
def hashSt1 : SimulationState :=
  { replicate := 1
    transfer := 0
    end_of_replicate := false
    lineages := hashLseed
    mutations := some hashMd1 }

/-- The first driver step of the counterexample run: replicate start, founder
seeding, first size walk; nothing is pruned yet. -/
theorem hashStep1 (π : ExtractOrder) :
    SimulationHandler.next_state hashOracle π hashH0 = .ok (some (hashSt1, hashH1)) := by
  have step : SimulationHandler.next_state hashOracle π hashH0 =
      .ok (some
        ({ replicate := 1
           transfer := 0
           end_of_replicate := false
           lineages := hashLseed
           mutations := some (update_sizes π hashRegs hashLseed) },
         { replicate := 1
           transfer := 0
           cfg := icHash
           lineages := hashLseed
           mutations := some (update_sizes π hashRegs hashLseed)
           rng := 0 })) := rfl
  rw [step, hashUp1 π]
  rfl

/-- The mutation tracker entering the transfer: cleared pruned list, transfer
recorded. -/
def hashMdC : MutationsData :=
  { muts := hashM1, pruned_muts := [], on_transfer := 1 }

/-- The lineage container after the bottleneck of the counterexample
transfer: the first draw kills the marker-1 lineage, the second keeps the
single cell of the marker-2 lineage. -/
def hashLb : LineagesData :=
  { N := [((1 : ℕ) : ℝ)]
    W := [1]
    U := [0 + 0 + 0]
    secondary := [hashSec 2]
    unique_id_counter := 2 }

/-- `directPoissonValue 0 (1/2) = 0`: the loop exits immediately because the
draw 1/2 is at most `exp(-0) = 1`. -/
theorem hashDP : directPoissonValue 0 (1 / 2) = 0 := by
  rw [directPoissonValue, Nat.sInf_eq_zero]
  left
  show uSeq 0 (1 / 2) 0 ≤ pSeq 0 0
  rw [show uSeq 0 (1 / 2) 0 = 1 / 2 from rfl, show pSeq 0 0 = Real.exp (-0) from rfl,
    neg_zero, Real.exp_zero]
  norm_num

/-- Phase 2 of the counterexample transfer: zero growth time, bottleneck
killing lineage 1 and keeping one cell of lineage 2, no new mutants. -/
theorem hashG2 : growth_phase_2 hashOracle icHash hashLseed (some hashMdC) 0 =
    .ok (hashLb, some hashMdC, 3) := by
  have hsa : sum_N_and_avg_W hashLseed = { sum_N := 2, avg_W := 1 } := by
    simp only [sum_N_and_avg_W, hashLseed, List.zipWith_cons_cons, List.zipWith_nil,
      List.sum_cons, List.sum_nil, SumNAndAvgW.mk.injEq, hashNH_eq]
    norm_num
  have hdt : Real.logb 2 (icHash.inner.max_pop_size /
      (sum_N_and_avg_W hashLseed).sum_N) / (sum_N_and_avg_W hashLseed).avg_W = 0 := by
    rw [hsa]
    show Real.logb 2 ((2 : ℝ) / 2) / 1 = 0
    norm_num [Real.logb_one]
  have hgrow : grow_lineages_inplace hashLseed 0 =
      { N := [1, 1], W := [1, 1], U := [0, 0],
        secondary := [hashSec 1, hashSec 2], unique_id_counter := 2 } := by
    simp only [grow_lineages_inplace, hashLseed, List.zipWith_cons_cons, List.zipWith_nil,
      LineagesData.mk.injEq, hashNH_eq]
    norm_num [Real.exp_zero]
  have hN : hashLseed.N = [1, 1] := by
    simp only [hashLseed, hashNH_eq]
  simp only [growth_phase_2, hdt]
  rw [if_neg (not_not_intro (le_refl (0 : ℝ)))]
  rw [hgrow, hN]
  simp only [List.length_cons, List.length_nil, List.range_succ, List.range_zero,
    List.nil_append, List.singleton_append, List.foldl_cons, List.foldl_nil,
    LineagesData.get, LineagesData.successor, LineagesData.default, LineagesData.push,
    List.getD_cons_zero, List.getD_cons_succ, round_one, Int.toNat_one, hashOracle]
  norm_num [add_mutants, expected_mutation_counts, poisson, direct_poisson,
    hashDP, hashLb, hashSec, List.zipWith_cons_cons, List.zipWith_nil,
    LineagesData.mk.injEq, Prod.ext_iff]

/-- The marker-1 founder mutation on the second `update_sizes`: flag reset and
never walked (its lineage went extinct in the bottleneck). -/
def hashM1f : Mutation :=
  { id := 1
    background_id := 0
    delta_W := hashDW
    delta_U := 0
    first_transfer := 0
    N := [hashNH]
    order := 1
    just_updated := false }

/-- The marker-2 founder mutation on the second `update_sizes`: walked with
the surviving single-cell population pushed. -/
def hashM2f : Mutation :=
  { id := 2
    background_id := 0
    delta_W := hashDW
    delta_U := 0
    first_transfer := 0
    N := [hashNH, ((1 : ℕ) : ℝ)]
    order := 1
    just_updated := true }

/-- The mutation map after the walks of the second `update_sizes`. -/
def hashM2 : List (ℕ × Mutation) := [(1, hashM1f), (2, hashM2f)]

/-- The walks of the second `update_sizes` evaluate to `hashM2`. -/
theorem hashPW2 : postWalkMap hashMdC hashLb = hashM2 := rfl

/-- On the second `update_sizes` both founder mutations are prunable: marker 1
went extinct (flag still false), marker 2 is fixed (its last entry equals the
total population). -/
theorem hashM2_prunable : ∀ km ∈ hashM2, prunable hashLb.N.sum km.2 := by
  have hsum : hashLb.N.sum = 1 := by
    simp only [hashLb, List.sum_cons, List.sum_nil]
    norm_num
  intro km hkm
  simp only [hashM2, List.mem_cons, List.not_mem_nil, or_false] at hkm
  rcases hkm with rfl | rfl
  · exact Or.inl rfl
  · refine Or.inr ?_
    rw [hsum]
    simp only [hashM2f, List.getLastD, f64EPSILON]
    norm_num

/-- The mutation tracker after the second `update_sizes`: empty active map,
both founder mutations pruned in the extraction order of this map instance. -/
def hashMd2 (π : ExtractOrder) : MutationsData :=
  { muts := [], pruned_muts := (π.1 hashM2).map (·.2), on_transfer := 1 }

/-- The second `update_sizes` of the counterexample run prunes both founder
mutations, in the given extraction order. -/
theorem hashUp2 (π : ExtractOrder) :
    update_sizes π hashMdC hashLb = hashMd2 π := by
  have hdrop : hashM2.filter
      (fun km => !decide (prunable hashLb.N.sum km.2)) = [] :=
    List.filter_eq_nil.mpr fun a ha => by
      simp only [decide_eq_true (hashM2_prunable a ha), Bool.not_true,
        Bool.false_eq_true, not_false_eq_true]
  have hall : ((π.1 hashM2).filter
      fun km => decide (prunable hashLb.N.sum km.2)) = π.1 hashM2 :=
    List.filter_eq_self.mpr fun a ha =>
      decide_eq_true (hashM2_prunable a ((π.2 hashM2).mem_iff.mp ha))
  simp only [update_sizes, hashPW2, hdrop, hall, List.nil_append]
  rfl

/-- A transfer with no Phase-1 doublings and a known Phase-2 result. -/
theorem perform_transfer_eq {σ : Type} (O : DistrOracle σ) (π : ExtractOrder)
    (h : SimulationHandler σ) (L2 : LineagesData) (m2 : Option MutationsData)
    (st2 : σ) (h0 : h.cfg.phase_1_doublings = 0)
    (hg : growth_phase_2 O h.cfg h.lineages h.mutations h.rng = .ok (L2, m2, st2)) :
    h.perform_transfer O π = .ok
      { h with
        lineages := L2
        mutations := m2.map fun md => update_sizes π md L2
        rng := st2 } := by
  simp only [SimulationHandler.perform_transfer, h0, List.range_zero, List.foldl_nil]
  rw [hg]

/-- A driver step that performs a transfer with a known result. -/
theorem next_state_eq_transfer {σ : Type} (O : DistrOracle σ) (π : ExtractOrder)
    (h h3 : SimulationHandler σ)
    (hcur : (h.current_state.map fun st => st.end_of_replicate) = some false)
    (hpt : SimulationHandler.perform_transfer O π
      { h with
        transfer := h.transfer + 1
        mutations := h.mutations.map fun (md : MutationsData) =>
          MutationsData.set_transfer { md with pruned_muts := [] } (h.transfer + 1) } =
      .ok h3) :
    h.next_state O π = .ok (h3.current_state.map fun st => (st, h3)) := by
  simp only [SimulationHandler.next_state]
  rw [if_pos hcur]
  dsimp only
  rw [if_neg (Nat.succ_ne_zero h.transfer)]
  rw [hpt]

/-- The handler after the second driver step. -/
def hashH2 (π : ExtractOrder) : SimulationHandler ℕ :=
  { replicate := 1
    transfer := 1
    cfg := icHash
    lineages := hashLb
    mutations := some (hashMd2 π)
    rng := 3 }

/-- The snapshot emitted by the second driver step. -/
def hashSt2 (π : ExtractOrder) : SimulationState :=
  { replicate := 1
    transfer := 1
    end_of_replicate := true
    lineages := hashLb
    mutations := some (hashMd2 π) }

/-- The second driver step of the counterexample run: the transfer prunes both
founder mutations in the extraction order of this map instance. -/
theorem hashStep2 (π : ExtractOrder) :
    SimulationHandler.next_state hashOracle π hashH1 = .ok (some (hashSt2 π, hashH2 π)) := by
  have hpt : SimulationHandler.perform_transfer hashOracle π
      { hashH1 with
        transfer := hashH1.transfer + 1
        mutations := hashH1.mutations.map fun (md : MutationsData) =>
          MutationsData.set_transfer { md with pruned_muts := [] } (hashH1.transfer + 1) } =
      .ok (hashH2 π) := by
    have h := perform_transfer_eq hashOracle π
      { hashH1 with
        transfer := hashH1.transfer + 1
        mutations := hashH1.mutations.map fun (md : MutationsData) =>
          MutationsData.set_transfer { md with pruned_muts := [] } (hashH1.transfer + 1) }
      hashLb (some hashMdC) 3 rfl hashG2
    rw [h]
    simp only [Option.map]
    rw [hashUp2 π]
    rfl
  rw [next_state_eq_transfer hashOracle π hashH1 (hashH2 π) rfl hpt]
  rfl

/-- Pruned-mutation-ID projection of the counterexample run: the first
snapshot prunes nothing, the second prunes the two founder mutations in the
order in which this map instance's hasher iterates them. -/
theorem hashRunEval (π : ExtractOrder) :
    (snapshotSeq hashOracle π cfgHash true 0 2).map
      (fun st => st.mutations.map fun md => md.pruned_muts.map fun m => m.id) =
    [some [], some ((π.1 hashM2).map fun km => km.2.id)] := by
  have hseq : snapshotSeq hashOracle π cfgHash true 0 2 =
      runSnapshots hashOracle π 2 hashH0 := by
    simp only [snapshotSeq, SimulationHandler.new, icHash_new]
    rfl
  rw [hseq, show (2 : ℕ) = 0 + 1 + 1 from rfl]
  simp only [runSnapshots, hashStep1 π, hashStep2 π]
  simp only [List.map, hashSt1, hashSt2, hashMd1, hashMd2, Option.map,
    List.map_nil, List.map_map]
  rfl

/-- Counterexample to C1 as stated: with the configuration and seed fixed, two
handler instances whose hash maps iterate in different (but equally legal)
orders produce snapshot sequences whose mutation data differ field-wise — the
recently pruned vectors list the same two pruned founder mutations in
different orders, so the sequences are not field-wise equal and are not a
function of the configuration and seed alone. -/
theorem C1_counterexample :
    (snapshotSeq hashOracle idExtract cfgHash true 0 2).map
        (fun st => st.mutations.map fun md => md.pruned_muts.map fun m => m.id) =
      [some [], some [1, 2]] ∧
    (snapshotSeq hashOracle revExtract cfgHash true 0 2).map
        (fun st => st.mutations.map fun md => md.pruned_muts.map fun m => m.id) =
      [some [], some [2, 1]] ∧
    ([some [], some [1, 2]] : List (Option (List ℕ))) ≠ [some [], some [2, 1]] := by
  refine ⟨?_, ?_, by decide⟩
  · rw [hashRunEval idExtract]
    rfl
  · rw [hashRunEval revExtract]
    rfl

/-- Evaluation of `C1_determinism_up_to_prune_order` at a concrete oracle,
configuration (seed 3), two extraction orders and two distinct entropies. -/
theorem C1_witness :
    List.Forall₂ SRel (snapshotSeq hashOracle idExtract cfgHash true 0 2)
        (snapshotSeq hashOracle revExtract cfgHash true 5 2) ∧
      (snapshotSeq hashOracle idExtract cfgHash true 0 2).length =
        (snapshotSeq hashOracle revExtract cfgHash true 5 2).length ∧
      (snapshotSeq hashOracle idExtract cfgHash true 0 2).map (fun st => st.replicate) =
        (snapshotSeq hashOracle revExtract cfgHash true 5 2).map (fun st => st.replicate) ∧
      (snapshotSeq hashOracle idExtract cfgHash true 0 2).map (fun st => st.transfer) =
        (snapshotSeq hashOracle revExtract cfgHash true 5 2).map (fun st => st.transfer) ∧
      (snapshotSeq hashOracle idExtract cfgHash true 0 2).map (fun st => st.end_of_replicate) =
        (snapshotSeq hashOracle revExtract cfgHash true 5 2).map (fun st => st.end_of_replicate) ∧
      (snapshotSeq hashOracle idExtract cfgHash true 0 2).map (fun st => st.lineages) =
        (snapshotSeq hashOracle revExtract cfgHash true 5 2).map (fun st => st.lineages) ∧
      (snapshotSeq hashOracle idExtract cfgHash true 0 2).map
          (fun st => st.mutations.map fun md => md.muts) =
        (snapshotSeq hashOracle revExtract cfgHash true 5 2).map
          (fun st => st.mutations.map fun md => md.muts) ∧
      (snapshotSeq hashOracle idExtract cfgHash true 0 2).map
          (fun st => st.mutations.map fun md => md.on_transfer) =
        (snapshotSeq hashOracle revExtract cfgHash true 5 2).map
          (fun st => st.mutations.map fun md => md.on_transfer) :=
  C1_determinism_up_to_prune_order hashOracle idExtract revExtract cfgHash cfgHash
    true 2 3 0 5 rfl rfl

end STEPS

end
